import Mathlib

/-!
Verification of the constraint-specification compiler of `geometric/prepare.py`
(`parse_constraints` and its scan generator `one_dimensional_scan`).

The Python source is shallowly embedded below.  Lines of the constraints text
are lists of characters; numeric values are exact rationals; the floating-point
transcendental primitives the code calls (`np.pi`, `np.sqrt`, `np.cos`,
`np.sin`, `calc_fac_dfac`) are threaded through as an opaque record of
functions, since no claim depends on their numeric values.  Python exceptions
become an `Except` error type whose constructors record which statement raised.
-/

/-- A raw text line, as a list of characters (Python `str`). -/
abbrev Line := List Char

/-- Test whether the first list is an initial segment of the second. -/
def leadsWith : Line → Line → Bool
  | [], _ => true
  | _ :: _, [] => false
  | p :: ps, c :: cs => p == c && leadsWith ps cs

/-- Python's `pat in s` substring test. -/
def containsSeq (pat : Line) : Line → Bool
  | [] => leadsWith pat []
  | c :: cs => leadsWith pat (c :: cs) || containsSeq pat cs

/-- Split a list of characters at every character satisfying `p`, keeping empty
pieces, like Python `str.split(sep)`. -/
def splitPred (p : Char → Bool) (l : Line) : List Line :=
  l.foldr
    (fun c acc =>
      match acc with
      | [] => [[c]]
      | h :: t => if p c then [] :: h :: t else (c :: h) :: t)
    [[]]

/-- Python `s.split(sep)` for a single separator character. -/
def splitSep (sep : Char) (l : Line) : List Line := splitPred (· == sep) l

/-- Python `s.split()` with no argument: split on whitespace runs, dropping
empty pieces. -/
def tokenizeLn (l : Line) : List Line := (splitPred (·.isWhitespace) l).filter (· ≠ [])

/-- Python `s.lower()`. -/
def lowerLn (l : Line) : Line := l.map Char.toLower

/-- Python `s.strip()`. -/
def trimWS (l : Line) : Line :=
  ((l.dropWhile Char.isWhitespace).reverse.dropWhile Char.isWhitespace).reverse

/-- The per-line preprocessing `line.split("#")[0].strip().lower()`. -/
def stripLine (l : Line) : Line := lowerLn (trimWS (l.takeWhile (· ≠ '#')))

/-- Insert a character into a sorted list of characters. -/
def insertChar (c : Char) : Line → Line
  | [] => [c]
  | d :: ds => if c ≤ d then c :: d :: ds else d :: insertChar c ds

/-- Python `''.join(sorted(key))`: the characters in ascending order. -/
def sortChars (l : Line) : Line := l.foldr insertChar []

/-- Python `key.replace('trans-','')`: remove every occurrence of `trans-`,
scanning left to right without overlap. -/
def stripTransAll : Line → Line
  | 't' :: 'r' :: 'a' :: 'n' :: 's' :: '-' :: rest => stripTransAll rest
  | c :: rest => c :: stripTransAll rest
  | [] => []

/-- Parse a run of decimal digits as a natural number. -/
def parseNatC (ds : Line) : ℕ :=
  ds.foldl (fun a c => 10 * a + (c.toNat - '0'.toNat)) 0

/-- Modelled from the spec: the `isint` helper from the `nifty` module (not in
the sources) tests whether a token is a pure integer, optionally signed. -/
def isintC (t : Line) : Bool :=
  match t with
  | [] => false
  | c :: rest =>
    let ds := if c = '-' ∨ c = '+' then rest else t
    (!ds.isEmpty) && ds.all (·.isDigit)

/-- The integer value of a token accepted by `isintC` (Python `int(...)`). -/
def intOfC (t : Line) : ℤ :=
  match t with
  | '-' :: rest => -(parseNatC rest : ℤ)
  | '+' :: rest => (parseNatC rest : ℤ)
  | _ => (parseNatC t : ℤ)

/-- Python `int(tok)`, failing (ValueError) on non-integer tokens. -/
def parseIntC (t : Line) : Option ℤ := if isintC t then some (intOfC t) else none

/-- Python `float(tok)` restricted to plain signed decimal literals, failing
(ValueError) otherwise. -/
def parseFloatC (t : Line) : Option ℚ :=
  let core : Line → Option ℚ := fun r =>
    match splitSep '.' r with
    | [ip] =>
      if (!ip.isEmpty) && ip.all (·.isDigit) then some (parseNatC ip) else none
    | [ip, fp] =>
      if ((!ip.isEmpty) || (!fp.isEmpty)) && ip.all (·.isDigit) && fp.all (·.isDigit) then
        some ((parseNatC ip : ℚ) + (parseNatC fp : ℚ) / (10 : ℚ) ^ fp.length)
      else none
    | _ => none
  match t with
  | '-' :: rest => (core rest).map (fun q => -q)
  | '+' :: rest => core rest
  | _ => core t

/-- Tags for the twelve internal-coordinate classes named in `ClassDict`. -/
inductive CTag where
  | Distance | Angle | Dihedral
  | CartX | CartY | CartZ
  | TransX | TransY | TransZ
  | RotA | RotB | RotC
deriving DecidableEq, Repr

/-- The `ClassDict` registry: keyword to (coordinate classes, atom count). -/
def classDict (k : Line) : Option (List CTag × ℕ) :=
  if k = "distance".data then some ([.Distance], 2)
  else if k = "angle".data then some ([.Angle], 3)
  else if k = "dihedral".data then some ([.Dihedral], 4)
  else if k = "x".data then some ([.CartX], 1)
  else if k = "y".data then some ([.CartY], 1)
  else if k = "z".data then some ([.CartZ], 1)
  else if k = "xy".data then some ([.CartX, .CartY], 1)
  else if k = "xz".data then some ([.CartX, .CartZ], 1)
  else if k = "yz".data then some ([.CartY, .CartZ], 1)
  else if k = "xyz".data then some ([.CartX, .CartY, .CartZ], 1)
  else if k = "trans-x".data then some ([.TransX], 1)
  else if k = "trans-y".data then some ([.TransY], 1)
  else if k = "trans-z".data then some ([.TransZ], 1)
  else if k = "trans-xy".data then some ([.TransX, .TransY], 1)
  else if k = "trans-xz".data then some ([.TransX, .TransZ], 1)
  else if k = "trans-yz".data then some ([.TransY, .TransZ], 1)
  else if k = "trans-xyz".data then some ([.TransX, .TransY, .TransZ], 1)
  else if k = "rotation".data then some ([.RotA, .RotB, .RotC], 1)
  else none

/-- The `AtomKeys` list of the source. -/
def AtomKeysC : List Line := ["x", "y", "z", "xy", "yz", "xz", "xyz"].map String.data

/-- The `TransKeys` list of the source. -/
def TransKeysC : List Line :=
  ["trans-x", "trans-y", "trans-z", "trans-xy", "trans-yz", "trans-xz", "trans-xyz"].map
    String.data

/-- Keyword normalization of lines 458-461: sort axis letters, reattaching a
`trans-` prefix when present. -/
def normKey (k : Line) : Line :=
  if sortChars k ∈ AtomKeysC then sortChars k
  else if sortChars (stripTransAll k) ∈ AtomKeysC then
    "trans-".data ++ sortChars (stripTransAll k)
  else k

/-- Errors raised by the compiler; each constructor records one `raise` site or
Python runtime exception. -/
inductive Err where
  | modeNotSet
  | tokenCount (line : String) (expected actual : ℕ)
  | keyErr (key : String)
  | unboundLocal (name : String)
  | atomsFromOne
  | atomOutOfRange
  | notOK
  | invalidAtomSpec (tok : String)
  | indexErr
  | reshapeErr
  | valueErr (tok : String)
  | negSteps
  | dimMismatch
  | internalMismatch
  | unreachableCase
deriving DecidableEq, Repr

/-- The floating-point primitives the compiler calls (`np.pi`, `np.sqrt`,
`np.cos`, `np.sin` and the first return of `calc_fac_dfac`), kept opaque. -/
structure Prims where
  pi : ℚ
  sqrtQ : ℚ → ℚ
  cosQ : ℚ → ℚ
  sinQ : ℚ → ℚ
  facQ : ℚ → ℚ

/-- The part of the Molecule object the compiler consults: element symbols and
the flattened frame-0 coordinates in Ångström. -/
structure Molecule where
  elem : List String
  xyzAng : List ℚ
deriving DecidableEq, Repr

/-- The molecule's atom count. -/
def Molecule.na (m : Molecule) : ℕ := m.elem.length

/-- Modelled from the spec: the Ångström-to-Bohr conversion factor imported
from the `nifty` module (not in the sources); the spec gives ≈1.8897259886. -/
def ang2bohr : ℚ := 18897259886 / 10000000000

/-- Modelled from the spec: the element-symbol table from the `molecule`
module (not in the sources), lowercased; the head of the periodic table
suffices for every claim. -/
def elementSymbols : List String :=
  ["h", "he", "li", "be", "b", "c", "n", "o", "f", "ne", "na", "mg", "al", "si", "p", "s",
   "cl", "ar", "k", "ca", "sc", "ti", "v", "cr", "mn", "fe", "co", "ni", "cu", "zn"]

/-- `numpy.linspace(a, b, n)` in exact arithmetic: `n` equally spaced values,
with both endpoints included when `n ≥ 2` and just `a` when `n = 1`. -/
def linspace (a b : ℚ) (n : ℕ) : List ℚ :=
  (List.range n).map (fun i : ℕ => a + (i : ℚ) * (b - a) / ((n : ℚ) - 1))

/-- `np.array(rows).T` iterated as a list, for a rectangular list of rows:
the list of columns (empty when there are no rows or the rows are empty). -/
def transposeU (l : List (List ℚ)) : List (List ℚ) :=
  match l with
  | [] => []
  | r :: _ => (List.range r.length).map (fun j => l.map (fun row => row.getD j 0))

/-- The `one_dimensional_scan` function (lines 361-386): per-component
`linspace` followed by a transpose. -/
def one_dimensional_scan (init final : List ℚ) (steps : ℕ) : Except Err (List (List ℚ)) :=
  if init.length ≠ final.length then .error .dimMismatch
  else .ok (transposeU (List.zipWith (fun a b => linspace a b steps) init final))

/-- `itertools.product` over a list of lists, first factor varying slowest. -/
def listProduct {α : Type} : List (List α) → List (List α)
  | [] => [[]]
  | g :: gs => g.flatMap (fun x => (listProduct gs).map (fun r => x :: r))

/-- Python's float `%` in exact arithmetic: `x - y * floor (x / y)`, which has
the sign of `y`. -/
def pymodQ (x y : ℚ) : ℚ := x - y * (⌊x / y⌋ : ℤ)

/-- The rows `coords.reshape(-1,3)[atoms,:]` of a flattened coordinate list. -/
def rowsOf (c : List ℚ) (atoms : List ℕ) : List (ℚ × ℚ × ℚ) :=
  atoms.map (fun a => (c.getD (3 * a) 0, c.getD (3 * a + 1) 0, c.getD (3 * a + 2) 0))

/-- Mean squared distance of a list of points from their centroid. -/
def rgSqOf (pts : List (ℚ × ℚ × ℚ)) : ℚ :=
  let n : ℚ := pts.length
  let cx := (pts.map (fun p => p.1)).sum / n
  let cy := (pts.map (fun p => p.2.1)).sum / n
  let cz := (pts.map (fun p => p.2.2)).sum / n
  ((pts.map (fun p => (p.1 - cx) ^ 2 + (p.2.1 - cy) ^ 2 + (p.2.2 - cz) ^ 2)).sum) / n

/-- The square of the weight `rg` computed on lines 563-565: the selected rows
of `coords` are multiplied by `ang2bohr` (again) before centering. -/
def rotRGSq (coords : List ℚ) (atoms : List ℕ) : ℚ :=
  rgSqOf ((rowsOf coords atoms).map (fun p => (p.1 * ang2bohr, p.2.1 * ang2bohr, p.2.2 * ang2bohr)))

/-- Modelled from the spec: the square of the radius of gyration as the spec
describes it — root-mean-square distance from the centroid of the selected
atoms, with the initial Ångström coordinates converted to Bohr exactly once.
Stated for the squared quantity because the scale sits under the square root. -/
def specRGSq (xyzAng : List ℚ) (atoms : List ℕ) : ℚ :=
  rgSqOf ((rowsOf xyzAng atoms).map (fun p => (p.1 * ang2bohr, p.2.1 * ang2bohr, p.2.2 * ang2bohr)))

/-- Modelled from the spec: the `uncommadash` atom-range selector from the
`nifty` module (not in the sources).  Per the spec it parses a comma-separated
list of single 1-based indices or dash-ranges (inclusive), converts them to
zero-based, and fails on malformed tokens or indices below 1. -/
def uncommadashM (tok : Line) : Except Err (List ℕ) :=
  match (splitSep ',' tok).mapM (fun p =>
      match splitSep '-' p with
      | [d] =>
        if (!d.isEmpty) && d.all (·.isDigit) then
          let n := parseNatC d
          if n = 0 then Except.error (Err.invalidAtomSpec (String.mk tok))
          else Except.ok [n - 1]
        else Except.error (Err.invalidAtomSpec (String.mk tok))
      | [d1, d2] =>
        if (!d1.isEmpty) && d1.all (·.isDigit) && (!d2.isEmpty) && d2.all (·.isDigit) then
          let a := parseNatC d1
          let b := parseNatC d2
          if a = 0 ∨ b < a then Except.error (Err.invalidAtomSpec (String.mk tok))
          else Except.ok (List.range' (a - 1) (b - a + 1))
        else Except.error (Err.invalidAtomSpec (String.mk tok))
      | _ => Except.error (Err.invalidAtomSpec (String.mk tok))) with
  | Except.error e => Except.error e
  | Except.ok groups => Except.ok groups.flatten

/-- Atom-spec resolution of lines 479-484: integer token, element symbol, or
comma/dash range. -/
def resolveAtoms (mol : Molecule) (tok : Line) : Except Err (List ℤ) :=
  if isintC tok then Except.ok [intOfC tok - 1]
  else if tok ∈ elementSymbols.map String.data then
    Except.ok
      (((List.range mol.na).filter
          (fun i => ((mol.elem.getD i "").toLower).data = tok)).map Int.ofNat)
  else
    match uncommadashM tok with
    | Except.error e => Except.error e
    | Except.ok l => Except.ok (l.map Int.ofNat)

/-- The expected token count after the keyword (lines 463-474); `none` models
the Python `ntok` variable staying unbound for an unrecognized mode. -/
def ntokOf (mode key : Line) (cl : List CTag) (na : ℕ) : Option ℕ :=
  if mode = "freeze".data then some na
  else if mode = "set".data then
    some (if key = "rotation".data then na + 4 else na + cl.length)
  else if mode = "scan".data then
    some (if key = "rotation".data then na + 6 else na + 2 * cl.length + 1)
  else none

/-- A constructed internal-coordinate object: each constructor mirrors one
constructor-call shape in the source. -/
inductive Obj where
  | nAry (cls : CTag) (atoms : List ℤ)
  | single (cls : CTag) (a : ℤ) (w : ℚ)
  | group (cls : CTag) (atoms : List ℤ) (w : List ℚ)
  | rotation (cls : CTag) (atoms : List ℤ) (coords : List ℚ) (w : ℚ)
deriving DecidableEq, Repr

/-- The atom indices an object refers to. -/
def objAtoms : Obj → List ℤ
  | .nAry _ as => as
  | .single _ a _ => [a]
  | .group _ as _ => as
  | .rotation _ as _ _ => as

/-- The canonicalization of lines 537-542 for distance/angle/dihedral. -/
def canonDAD (key : Line) (atoms : List ℤ) : List ℤ :=
  let a1 := if key = "distance".data ∧ atoms.getD 0 0 > atoms.getD 1 0 then atoms.reverse else atoms
  let a2 := if key = "angle".data ∧ a1.getD 0 0 > a1.getD 2 0 then a1.reverse else a1
  if key = "dihedral".data ∧ a2.getD 1 0 > a2.getD 2 0 then a2.reverse else a2

/-- Sequential effectful map over `Except`, stopping at the first error, like a
Python list comprehension that may raise. -/
def exMapM {α β : Type} (f : α → Except Err β) : List α → Except Err (List β)
  | [] => Except.ok []
  | x :: xs =>
    match f x with
    | Except.error e => Except.error e
    | Except.ok y =>
      match exMapM f xs with
      | Except.error e => Except.error e
      | Except.ok ys => Except.ok (y :: ys)

/-- Python `float(tok)` as a computation that raises ValueError on failure. -/
def floatTok (t : Line) : Except Err ℚ :=
  match parseFloatC t with
  | some q => Except.ok q
  | none => Except.error (Err.valueErr (String.mk t))

/-- Python `int(tok)` as a computation that raises ValueError on failure. -/
def intTok (t : Line) : Except Err ℤ :=
  match parseIntC t with
  | some z => Except.ok z
  | none => Except.error (Err.valueErr (String.mk t))

/-- The value slice `[float(i) * ang2bohr for i in s[lo:lo+n]]`. -/
def floatSlice (s : List Line) (lo n : ℕ) : Except Err (List ℚ) :=
  match exMapM floatTok ((s.drop lo).take n) with
  | Except.error e => Except.error e
  | Except.ok qs => Except.ok (qs.map (· * ang2bohr))

/-- `int(s[i])` followed by numpy's rejection of a negative `num` argument to
`linspace`, returning the step count as a natural number. -/
def stepsTok (t : Line) : Except Err ℕ :=
  match intTok t with
  | Except.error e => Except.error e
  | Except.ok z => if z < 0 then Except.error Err.negSteps else Except.ok z.toNat

/-- One group list of coordinate objects paired with its parallel value-group
list, as appended by one declaration. -/
abbrev Groups := List (List Obj) × List (List (List (Option ℚ)))

/-- The atom/axis-key branch (lines 489-508), given the already resolved and
range-checked atom list. -/
def atomBranch (classes : List CTag) (mode : Line) (s : List Line) (atoms : List ℤ) :
    Except Err Groups :=
  let objsNew := classes.map (fun cls => atoms.map (fun a => Obj.single cls a 1))
  if mode = "freeze".data then
    Except.ok (objsNew, classes.map (fun _ => [atoms.map (fun _ => (none : Option ℚ))]))
  else if mode = "set".data then
    match floatSlice s 2 classes.length with
    | Except.error e => Except.error e
    | Except.ok x1 =>
      Except.ok (objsNew,
        (List.range classes.length).map
          (fun icls => [atoms.map (fun _ => some (x1.getD icls 0))]))
  else
    match floatSlice s 2 classes.length with
    | Except.error e => Except.error e
    | Except.ok x1 =>
      match floatSlice s (2 + classes.length) classes.length with
      | Except.error e => Except.error e
      | Except.ok x2 =>
        match stepsTok (s.getD (2 + 2 * classes.length) []) with
        | Except.error e => Except.error e
        | Except.ok nstep =>
          match one_dimensional_scan x1 x2 nstep with
          | Except.error e => Except.error e
          | Except.ok valscan =>
            Except.ok (objsNew,
              (List.range classes.length).map
                (fun icls => valscan.map (fun v => atoms.map (fun _ => some (v.getD icls 0)))))

/-- The translation-key branch (lines 509-532), given the resolved and
range-checked atom list. -/
def transBranch (classes : List CTag) (mode : Line) (s : List Line) (atoms : List ℤ) :
    Except Err Groups :=
  match
    (if atoms.length > 1 then
      Except.ok [classes.map (fun cls => Obj.group cls atoms (atoms.map (fun _ => 1 / (atoms.length : ℚ))))]
    else
      match atoms with
      | [] => Except.error Err.indexErr
      | a :: _ => Except.ok [classes.map (fun cls => Obj.single cls a 1)]) with
  | Except.error e => Except.error e
  | Except.ok objsNew =>
    if mode = "freeze".data then
      Except.ok (objsNew, [[classes.map (fun _ => (none : Option ℚ))]])
    else if mode = "set".data then
      match floatSlice s 2 classes.length with
      | Except.error e => Except.error e
      | Except.ok x1 => Except.ok (objsNew, [[x1.map some]])
    else
      match floatSlice s 2 classes.length with
      | Except.error e => Except.error e
      | Except.ok x1 =>
        match floatSlice s (2 + classes.length) classes.length with
        | Except.error e => Except.error e
        | Except.ok x2 =>
          match stepsTok (s.getD (2 + 2 * classes.length) []) with
          | Except.error e => Except.error e
          | Except.ok nstep =>
            match one_dimensional_scan x1 x2 nstep with
            | Except.error e => Except.error e
            | Except.ok valscan => Except.ok (objsNew, [valscan.map (·.map some)])

/-- Atom-token resolution in the distance/angle/dihedral branch (line 536):
`int(i) - 1` for each token, raising `ValueError` on a non-integer. -/
def dadTok (t : Line) : Except Err ℤ :=
  match parseIntC t with
  | some z => Except.ok (z - 1)
  | none => Except.error (Err.valueErr (String.mk t))

/-- The distance/angle/dihedral branch (lines 533-559). -/
def dadBranch (P : Prims) (key : Line) (classes : List CTag) (nAtom : ℕ) (mode : Line)
    (s : List Line) (na : ℕ) : Except Err Groups :=
  if classes.length ≠ 1 then Except.error Err.notOK
  else
    match exMapM dadTok ((s.drop 1).take nAtom) with
    | Except.error e => Except.error e
    | Except.ok atomsRaw =>
      let atoms := canonDAD key atomsRaw
      if atoms.any (· < 0) then Except.error Err.atomsFromOne
      else if atoms.any (· ≥ (na : ℤ)) then Except.error Err.atomOutOfRange
      else
        let objsNew := [[Obj.nAry (classes.getD 0 .Distance) atoms]]
        if mode = "freeze".data then Except.ok (objsNew, [[[(none : Option ℚ)]]])
        else
          match floatTok (s.getD (1 + nAtom) []) with
          | Except.error e => Except.error e
          | Except.ok q1 =>
            let x1 := if key = "distance".data then q1 * ang2bohr else q1 * P.pi / 180
            if mode = "set".data then Except.ok (objsNew, [[[some x1]]])
            else
              match floatTok (s.getD (2 + nAtom) []) with
              | Except.error e => Except.error e
              | Except.ok q2 =>
                let x2 := if key = "distance".data then q2 * ang2bohr else q2 * P.pi / 180
                match stepsTok (s.getD (3 + nAtom) []) with
                | Except.error e => Except.error e
                | Except.ok nstep =>
                  Except.ok (objsNew, [(linspace x1 x2 nstep).map (fun v => [some v])])

/-- The rotation branch (lines 560-611). -/
def rotBranch (P : Prims) (classes : List CTag) (mode : Line) (s : List Line)
    (coords : List ℚ) : Except Err Groups :=
  match uncommadashM (s.getD 1 []) with
  | Except.error e => Except.error e
  | Except.ok atomsN =>
    if coords.length % 3 ≠ 0 then Except.error Err.reshapeErr
    else if atomsN.any (· ≥ coords.length / 3) then Except.error Err.indexErr
    else
      let rg := P.sqrtQ (rotRGSq coords atomsN)
      let atomsZ := atomsN.map Int.ofNat
      if mode = "freeze".data then
        Except.ok (classes.map (fun cls => [Obj.rotation cls atomsZ coords rg]),
                   classes.map (fun _ => [[(none : Option ℚ)]]))
      else
        let objsNew := [classes.map (fun cls => Obj.rotation cls atomsZ coords rg)]
        match floatTok (s.getD 2 []) with
        | Except.error e => Except.error e
        | Except.ok ux =>
          match floatTok (s.getD 3 []) with
          | Except.error e => Except.error e
          | Except.ok uy =>
            match floatTok (s.getD 4 []) with
            | Except.error e => Except.error e
            | Except.ok uz =>
              let nrm := P.sqrtQ (ux ^ 2 + uy ^ 2 + uz ^ 2)
              let u1 := ux / nrm
              let u2 := uy / nrm
              let u3 := uz / nrm
              match floatTok (s.getD 5 []) with
              | Except.error e => Except.error e
              | Except.ok d1 =>
                let theta1 := d1 * P.pi / 180
                if mode = "set".data then
                  let theta3 := pymodQ (theta1 + P.pi) (2 * P.pi) - P.pi
                  let cc := P.cosQ (theta3 / 2)
                  let sn := P.sinQ (theta3 / 2)
                  let fac := P.facQ cc
                  Except.ok (objsNew,
                    [[[some (fac * (u1 * sn) * rg), some (fac * (u2 * sn) * rg),
                       some (fac * (u3 * sn) * rg)]]])
                else
                  match floatTok (s.getD 6 []) with
                  | Except.error e => Except.error e
                  | Except.ok d2 =>
                    let theta2 := d2 * P.pi / 180
                    match stepsTok (s.getD 7 []) with
                    | Except.error e => Except.error e
                    | Except.ok nstep =>
                      let vs := (linspace theta1 theta2 nstep).map (fun theta =>
                        let theta3 := pymodQ (theta + P.pi) (2 * P.pi) - P.pi
                        let cc := P.cosQ (theta3 / 2)
                        let sn := P.sinQ (theta3 / 2)
                        let fac := P.facQ cc
                        [some (fac * (u1 * sn) * rg), some (fac * (u2 * sn) * rg),
                         some (fac * (u3 * sn) * rg)])
                      Except.ok (objsNew, [vs])

/-- The loop state of `parse_constraints`: current mode, options-block flag and
the accumulated per-declaration groups. -/
structure PState where
  mode : Option Line
  inOptions : Bool
  objs : List (List Obj)
  vals : List (List (List (Option ℚ)))
deriving DecidableEq, Repr

/-- Process one declaration line (lines 456-611), already stripped, with the
current mode. -/
def processDecl (P : Prims) (mol : Molecule) (coords : List ℚ) (mode : Line) (st : PState)
    (line : Line) : Except Err PState :=
  match tokenizeLn line with
  | [] => Except.error Err.unreachableCase
  | s0 :: stail =>
    match classDict (normKey s0) with
    | none => Except.error (Err.keyErr (String.mk (normKey s0)))
    | some (classes, nAtom) =>
      match ntokOf mode (normKey s0) classes nAtom with
      | none => Except.error (Err.unboundLocal "ntok")
      | some ntok =>
        if (s0 :: stail).length ≠ ntok + 1 then
          Except.error (Err.tokenCount (String.mk line) (ntok + 1) (s0 :: stail).length)
        else
          match
            (if normKey s0 ∈ AtomKeysC ∨ normKey s0 ∈ TransKeysC then
              match resolveAtoms mol ((s0 :: stail).getD 1 []) with
              | Except.error e => Except.error e
              | Except.ok atoms =>
                if atoms.any (· < 0) then Except.error Err.atomsFromOne
                else if atoms.any (· ≥ (mol.na : ℤ)) then Except.error Err.atomOutOfRange
                else if normKey s0 ∈ AtomKeysC then atomBranch classes mode (s0 :: stail) atoms
                else transBranch classes mode (s0 :: stail) atoms
            else if normKey s0 = "distance".data ∨ normKey s0 = "angle".data ∨
                normKey s0 = "dihedral".data then
              dadBranch P (normKey s0) classes nAtom mode (s0 :: stail) mol.na
            else if normKey s0 = "rotation".data then
              rotBranch P classes mode (s0 :: stail) coords
            else Except.ok ([], [])) with
          | Except.error e => Except.error e
          | Except.ok (objsNew, valsNew) =>
            Except.ok { st with objs := st.objs ++ objsNew, vals := st.vals ++ valsNew }

/-- Process one raw input line (lines 435-455): options-block tracking, comment
stripping, blank skipping, mode markers, and declaration dispatch. -/
def processLine (P : Prims) (mol : Molecule) (coords : List ℚ) (st : PState) (raw : Line) :
    Except Err PState :=
  let st1 := if containsSeq "$options".data raw then { st with inOptions := true } else st
  if st1.inOptions then
    Except.ok (if containsSeq "$end".data raw then { st1 with inOptions := false } else st1)
  else
    let line := stripLine raw
    if line.length = 0 then Except.ok st1
    else if line.headD ' ' = '$' then
      Except.ok { st1 with mode := some (line.filter (· ≠ '$')) }
    else
      match st1.mode with
      | none => Except.error Err.modeNotSet
      | some mode => processDecl P mol coords mode st1 line

/-- Run the line loop over a list of raw lines. -/
def runLines (P : Prims) (mol : Molecule) (coords : List ℚ) :
    PState → List Line → Except Err PState
  | st, [] => Except.ok st
  | st, l :: ls =>
    match processLine P mol coords st l with
    | Except.error e => Except.error e
    | Except.ok st1 => runLines P mol coords st1 ls

/-- Run the loop from the initial state, with `coords` built as on line 433. -/
def parseCore (P : Prims) (mol : Molecule) (lines : List Line) : Except Err PState :=
  runLines P mol (mol.xyzAng.map (· * ang2bohr)) ⟨none, false, [], []⟩ lines

/-- Flatten the per-declaration value groups into the cartesian-product grid
(line 614). -/
def valgrpsOf (vals : List (List (List (Option ℚ)))) : List (List (Option ℚ)) :=
  (listProduct vals).map List.flatten

/-- The tail of `parse_constraints` (lines 612-616) on an explicit line list:
final length check, grid construction and flattening. -/
def parseLinesC (P : Prims) (mol : Molecule) (lines : List Line) :
    Except Err (List Obj × List (List (Option ℚ))) :=
  match parseCore P mol lines with
  | Except.error e => Except.error e
  | Except.ok st =>
    if st.objs.length ≠ st.vals.length then Except.error Err.internalMismatch
    else Except.ok (st.objs.flatten, valgrpsOf st.vals)

/-- The `parse_constraints` entry point: split the input on newlines and run
the compiler. -/
def parse_constraints (P : Prims) (mol : Molecule) (s : String) :
    Except Err (List Obj × List (List (Option ℚ))) :=
  parseLinesC P mol (splitSep '\n' s.data)

/-- Concrete primitives for witness evaluations; each claim theorem that cares
quantifies over all primitives, so only their types matter here. -/
def P0 : Prims := { pi := 3, sqrtQ := id, cosQ := id, sinQ := id, facQ := fun _ => 2 }

/-- A three-atom test molecule. -/
def mol3 : Molecule := { elem := ["h", "o", "h"], xyzAng := [0, 0, 0, 1, 0, 0, 0, 1, 0] }

/-- A four-atom test molecule. -/
def mol4 : Molecule :=
  { elem := ["c", "c", "c", "c"], xyzAng := [0, 0, 0, 1, 0, 0, 0, 1, 0, 0, 0, 1] }

/-- A two-atom test molecule. -/
def mol2 : Molecule := { elem := ["h", "h"], xyzAng := [0, 0, 0, 1, 0, 0] }

deriving instance DecidableEq for Except

/-- A two-declaration scan input: three steps crossed with two steps. -/
def twoScanInput : String := "$scan\ndistance 1 2 1.0 2.0 3\ndistance 3 4 1.0 3.0 2"

/-- A constraints input whose condition claim C7 describes: some non-blank,
non-comment declaration line appears before any line that starts an options
block or sets a mode. -/
def earlyDecl : List Line → Bool
  | [] => false
  | l :: ls =>
    if containsSeq "$options".data l then false
    else
      let p := stripLine l
      if p.length = 0 then earlyDecl ls
      else if p.headD ' ' = '$' then false
      else true

/-- The expected token-count table exactly as claim C3 states it: per family
and mode, the number of tokens after the keyword. -/
def claimExpected (key mode : Line) (cl : List CTag) (na : ℕ) : ℕ :=
  if key = "rotation".data then
    if mode = "freeze".data then 1 else if mode = "set".data then 5 else 7
  else if key = "distance".data ∨ key = "angle".data ∨ key = "dihedral".data then
    if mode = "freeze".data then na else if mode = "set".data then na + 1 else na + 3
  else
    if mode = "freeze".data then na
    else if mode = "set".data then na + cl.length
    else na + 2 * cl.length + 1

/-- A value group and an object group are aligned when every step has exactly
one value per coordinate object. -/
def lenRel (og : List Obj) (vg : List (List (Option ℚ))) : Prop :=
  ∀ stp ∈ vg, stp.length = og.length

/-- The loop invariant: value groups aligned with object groups, and every
atom index stored in an object lies in `[0, na)`. -/
def GoodState (na : ℕ) (st : PState) : Prop :=
  List.Forall₂ lenRel st.objs st.vals ∧
  ∀ g ∈ st.objs, ∀ o ∈ g, ∀ i ∈ objAtoms o, 0 ≤ i ∧ i < (na : ℤ)

/-- Python's float `%` on the reals: `x - y * floor (x / y)`, which has the
sign of `y`; this is the operation on line 581 and line 602. -/
noncomputable def pymodR (x y : ℝ) : ℝ := x - y * (⌊x / y⌋ : ℤ)

/-- The angle wrap `theta3 = (theta + np.pi) % (2*np.pi) - np.pi` of lines
580-581 and 601-602, read over the reals. -/
noncomputable def wrapTheta (theta : ℝ) : ℝ :=
  pymodR (theta + Real.pi) (2 * Real.pi) - Real.pi

/-! ### Lemmas about `linspace`, `transposeU` and `one_dimensional_scan` -/
theorem linspace_length (a b : ℚ) (n : ℕ) : (linspace a b n).length = n := by
  unfold linspace
  rw [List.length_map, List.length_range]

theorem linspace_getD (a b : ℚ) (n i : ℕ) (h : i < n) :
    (linspace a b n).getD i 0 = a + (i : ℚ) * (b - a) / ((n : ℚ) - 1) := by
  unfold linspace
  rw [List.getD_eq_getElem _ _ (by rw [List.length_map, List.length_range]; omega)]
  simp

theorem linspace_getD_zero (a b : ℚ) (n : ℕ) (hn : 1 ≤ n) : (linspace a b n).getD 0 0 = a := by
  rw [linspace_getD a b n 0 (by omega)]
  push_cast
  ring

theorem linspace_getD_last (a b : ℚ) (n : ℕ) (hn : 2 ≤ n) :
    (linspace a b n).getD (n - 1) 0 = b := by
  rw [linspace_getD a b n (n - 1) (by omega)]
  have hc : ((n - 1 : ℕ) : ℚ) = (n : ℚ) - 1 := by
    push_cast [Nat.cast_sub (by omega : 1 ≤ n)]
    ring
  rw [hc]
  have hne : (n : ℚ) - 1 ≠ 0 := by
    have h2 : (2 : ℚ) ≤ (n : ℚ) := by exact_mod_cast hn
    intro hcon
    nlinarith
  field_simp

theorem linspace_one (a b : ℚ) : linspace a b 1 = [a] := by
  have h := linspace_getD_zero a b 1 le_rfl
  have hl : (linspace a b 1).length = 1 := linspace_length a b 1
  match hx : linspace a b 1 with
  | [] => rw [hx] at hl; cases hl
  | [x] =>
    rw [hx] at h
    simp only [List.getD_cons_zero] at h
    rw [h]
  | x :: y :: r => rw [hx] at hl; simp at hl
theorem zipWith_linspace_getD_zero (n : ℕ) (hn : 1 ≤ n) :
    ∀ (x y : List ℚ), x.length = y.length →
      (List.zipWith (fun a b => linspace a b n) x y).map (fun r => r.getD 0 0) = x := by
  intro x
  induction x with
  | nil => intro y _; simp
  | cons a x ih =>
    intro y hy
    match y with
    | [] => simp at hy
    | b :: y =>
      simp only [List.zipWith_cons_cons, List.map_cons]
      rw [linspace_getD_zero a b n hn, ih y (by simpa using hy)]

theorem zipWith_linspace_getD_last (n : ℕ) (hn : 2 ≤ n) :
    ∀ (x y : List ℚ), x.length = y.length →
      (List.zipWith (fun a b => linspace a b n) x y).map (fun r => r.getD (n - 1) 0) = y := by
  intro x
  induction x with
  | nil =>
    intro y hy
    simp only [List.length_nil] at hy
    rw [List.eq_nil_of_length_eq_zero hy.symm]
    simp
  | cons a x ih =>
    intro y hy
    match y with
    | [] => simp at hy
    | b :: y =>
      simp only [List.zipWith_cons_cons, List.map_cons]
      rw [linspace_getD_last a b n hn, ih y (by simpa using hy)]

theorem transposeU_mem_length (l : List (List ℚ)) (row : List ℚ) (h : row ∈ transposeU l) :
    row.length = l.length := by
  match l with
  | [] => simp [transposeU] at h
  | r :: rest =>
    unfold transposeU at h
    obtain ⟨j, _, hj⟩ := List.mem_map.mp h
    rw [← hj]
    simp

theorem ods_ok_of_eq_length (init final : List ℚ) (steps : ℕ) (h : init.length = final.length) :
    one_dimensional_scan init final steps =
      Except.ok (transposeU (List.zipWith (fun a b => linspace a b steps) init final)) := by
  unfold one_dimensional_scan
  rw [if_neg (by omega)]

theorem ods_row_length (init final : List ℚ) (steps : ℕ) (out : List (List ℚ))
    (h : one_dimensional_scan init final steps = Except.ok out) :
    ∀ row ∈ out, row.length = init.length := by
  by_cases hl : init.length = final.length
  · rw [ods_ok_of_eq_length init final steps hl] at h
    intro row hrow
    rw [← Except.ok.inj h] at hrow
    have := transposeU_mem_length _ _ hrow
    rw [this, List.length_zipWith]
    omega
  · unfold one_dimensional_scan at h
    rw [if_pos (by omega)] at h
    cases h
theorem transposeU_getElem (r : List ℚ) (rest : List (List ℚ)) (j : ℕ) (hj : j < r.length) :
    (transposeU (r :: rest))[j]? = some ((r :: rest).map (fun row => row.getD j 0)) := by
  show ((List.range r.length).map (fun j => (r :: rest).map (fun row => row.getD j 0)))[j]? = _
  rw [List.getElem?_map]
  rw [List.getElem?_range hj]
  rfl

/-- C2 counterexample: on the empty pair of lists with one step, the code
returns no vectors at all instead of the single vector `init`. -/
theorem c2_empty_scan_counterexample :
    one_dimensional_scan [] [] 1 = Except.ok [] ∧
    one_dimensional_scan [] [] 1 ≠ Except.ok [([] : List ℚ)] ∧
    ([] : List (List ℚ)).length ≠ 1 := by
  refine ⟨by decide, by decide, by decide⟩

/-- C2 (amended): `one_dimensional_scan` raises on a length mismatch, and for
a nonempty `init` of the same length as `final` it returns exactly `steps`
vectors of length `init.length` with `numpy.linspace` semantics: for
`steps ≥ 2` the first vector is `init` and the last is `final`, and for
`steps = 1` the result is `[init]`; for empty inputs it returns `[]` instead
of `steps` empty vectors. -/
theorem c2_one_dimensional_scan_spec (init final : List ℚ) (steps : ℕ) :
    (init.length ≠ final.length →
      one_dimensional_scan init final steps = Except.error Err.dimMismatch) ∧
    (init.length = final.length → init ≠ [] →
      ∃ out, one_dimensional_scan init final steps = Except.ok out ∧
        out.length = steps ∧
        (∀ row ∈ out, row.length = init.length) ∧
        (2 ≤ steps → out.head? = some init ∧ out.getLast? = some final) ∧
        (steps = 1 → out = [init])) ∧
    (init = [] → final = [] → one_dimensional_scan init final steps = Except.ok []) := by
  refine ⟨?_, ?_, ?_⟩
  · intro h
    unfold one_dimensional_scan
    rw [if_pos (by omega)]
  · intro hlen hne
    obtain ⟨a, irest, rfl⟩ : ∃ a irest, init = a :: irest := by
      cases init with
      | nil => exact absurd rfl hne
      | cons a r => exact ⟨a, r, rfl⟩
    obtain ⟨b, frest, rfl⟩ : ∃ b frest, final = b :: frest := by
      cases final with
      | nil => simp at hlen
      | cons b r => exact ⟨b, r, rfl⟩
    set out := transposeU (List.zipWith (fun x y => linspace x y steps) (a :: irest) (b :: frest))
      with hout
    have hzip : List.zipWith (fun x y => linspace x y steps) (a :: irest) (b :: frest) =
        linspace a b steps :: List.zipWith (fun x y => linspace x y steps) irest frest := by
      simp
    have hL : out.length = steps := by
      rw [hout, hzip]
      show ((List.range (linspace a b steps).length).map _).length = steps
      rw [List.length_map, List.length_range, linspace_length]
    have hhead : 1 ≤ steps → out.head? = some (a :: irest) := by
      intro h1
      rw [List.head?_eq_getElem?, hout, hzip]
      rw [transposeU_getElem _ _ 0 (by rw [linspace_length]; omega)]
      rw [← hzip]
      rw [zipWith_linspace_getD_zero steps h1 (a :: irest) (b :: frest) hlen]
    have hlast : 2 ≤ steps → out.getLast? = some (b :: frest) := by
      intro h2
      rw [List.getLast?_eq_getElem?, hL, hout, hzip]
      rw [transposeU_getElem _ _ (steps - 1) (by rw [linspace_length]; omega)]
      rw [← hzip]
      rw [zipWith_linspace_getD_last steps h2 (a :: irest) (b :: frest) hlen]
    refine ⟨out, ods_ok_of_eq_length _ _ steps hlen, hL, ?_, ?_, ?_⟩
    · intro row hrow
      have h1 := transposeU_mem_length _ _ hrow
      rw [h1, List.length_zipWith]
      omega
    · intro h2
      exact ⟨hhead (by omega), hlast h2⟩
    · intro h1
      obtain ⟨x, hx⟩ := List.length_eq_one.mp (by rw [hL, h1])
      have := hhead (by omega)
      rw [hx] at this ⊢
      simp only [List.head?_cons, Option.some.injEq] at this
      rw [this]
  · intro h1 h2
    subst h1
    subst h2
    rw [ods_ok_of_eq_length _ _ steps rfl]
    rfl

/-- C2 witness: a concrete application of the amended theorem at unequal
lengths and at a two-step scan from `[1]` to `[3]`. -/
theorem c2_witness :
    one_dimensional_scan [(1 : ℚ)] [] 5 = Except.error Err.dimMismatch ∧
    (∃ out, one_dimensional_scan [(1 : ℚ)] [3] 2 = Except.ok out ∧
      out.length = 2 ∧
      (∀ row ∈ out, row.length = [(1 : ℚ)].length) ∧
      (2 ≤ 2 → out.head? = some [1] ∧ out.getLast? = some [3]) ∧
      (2 = 1 → out = [[1]])) := by
  constructor
  · exact (c2_one_dimensional_scan_spec [1] [] 5).1 (by decide)
  · exact (c2_one_dimensional_scan_spec [1] [3] 2).2.1 rfl (by decide)

/-! ### Claims C6 and C10 -/
theorem pymodR_bounds (x y : ℝ) (hy : 0 < y) : 0 ≤ pymodR x y ∧ pymodR x y < y := by
  have hne : y ≠ 0 := ne_of_gt hy
  have hfr : pymodR x y = y * Int.fract (x / y) := by
    unfold pymodR Int.fract
    rw [mul_sub, mul_div_cancel₀ _ hne]
  constructor
  · rw [hfr]
    exact mul_nonneg (le_of_lt hy) (Int.fract_nonneg _)
  · rw [hfr]
    exact mul_lt_of_lt_one_right hy (Int.fract_lt_one _)

/-- C6 (amended): the wrapped angle of lines 580-581 and 601-602 is congruent
to the input angle modulo `2π` and lies in the half-open interval `[-π, π)`
(closed on the left, open on the right). -/
theorem c6_wrap_congruent_and_range (theta : ℝ) :
    (∃ k : ℤ, wrapTheta theta = theta - 2 * Real.pi * k) ∧
    -Real.pi ≤ wrapTheta theta ∧ wrapTheta theta < Real.pi := by
  have hpi := Real.pi_pos
  have h2 : (0 : ℝ) < 2 * Real.pi := by linarith
  refine ⟨⟨⌊(theta + Real.pi) / (2 * Real.pi)⌋, ?_⟩, ?_, ?_⟩
  · unfold wrapTheta pymodR
    ring
  · have := (pymodR_bounds (theta + Real.pi) (2 * Real.pi) h2).1
    unfold wrapTheta
    linarith
  · have := (pymodR_bounds (theta + Real.pi) (2 * Real.pi) h2).2
    unfold wrapTheta
    linarith

/-- C6 counterexample: at `theta = π` the wrapped angle is `-π`, which is not
in the claimed interval `(-π, π]`. -/
theorem c6_pi_counterexample :
    wrapTheta Real.pi = -Real.pi ∧
    ¬(-Real.pi < wrapTheta Real.pi ∧ wrapTheta Real.pi ≤ Real.pi) := by
  have hpi := Real.pi_pos
  have hne : (2 : ℝ) * Real.pi ≠ 0 := by positivity
  have hq : (Real.pi + Real.pi) / (2 * Real.pi) = 1 := by
    field_simp
    ring
  have h1 : wrapTheta Real.pi = -Real.pi := by
    unfold wrapTheta pymodR
    rw [hq]
    rw [Int.floor_one]
    push_cast
    ring
  refine ⟨h1, ?_⟩
  intro h
  rw [h1] at h
  exact lt_irrefl _ h.1

/-- C10: the options-block entry and exit tests are raw substring matches done
before comment stripping and lowercasing.  A declaration line whose comment
mentions `$options` starts the block and suppresses every following line (the
same input without that comment fails with a mode error); an upper-case
`$OPTIONS` is not an options marker but becomes the (invalid) mode `options`,
so the next declaration dies on the unbound `ntok`; `$END` does not close a
block while a lower-case `$end` does. -/
theorem c10_options_substring_semantics :
    parse_constraints P0 mol3 "distance 1 2 # $options\n$freeze\ndistance 1 2" =
      Except.ok ([], [[]]) ∧
    parse_constraints P0 mol3 "distance 1 2\n$freeze\ndistance 1 2" =
      Except.error Err.modeNotSet ∧
    parse_constraints P0 mol3 "$OPTIONS\ndistance 1 2" =
      Except.error (Err.unboundLocal "ntok") ∧
    parse_constraints P0 mol3 "$options\n$END\ndistance 1 2" = Except.ok ([], [[]]) ∧
    parse_constraints P0 mol3 "$options\n$end\ndistance 1 2" =
      Except.error Err.modeNotSet := by
  refine ⟨by decide, by decide, by decide, by decide, by decide⟩

/-! ### Claim C8 -/
theorem key_angle_ne : ("distance".data = "angle".data) = False := eq_false (by decide)

theorem canonDAD_distance (l : List ℤ) :
    canonDAD "distance".data l = if l.getD 0 0 > l.getD 1 0 then l.reverse else l := by
  unfold canonDAD
  have h1 : ("distance".data = "angle".data) = False := eq_false (by decide)
  have h2 : ("distance".data = "dihedral".data) = False := eq_false (by decide)
  simp [h1, h2]

theorem canonDAD_angle (l : List ℤ) :
    canonDAD "angle".data l = if l.getD 0 0 > l.getD 2 0 then l.reverse else l := by
  unfold canonDAD
  have h1 : ("angle".data = "distance".data) = False := eq_false (by decide)
  have h2 : ("angle".data = "dihedral".data) = False := eq_false (by decide)
  simp [h1, h2]

theorem canonDAD_dihedral (l : List ℤ) :
    canonDAD "dihedral".data l = if l.getD 1 0 > l.getD 2 0 then l.reverse else l := by
  unfold canonDAD
  have h1 : ("dihedral".data = "distance".data) = False := eq_false (by decide)
  have h2 : ("dihedral".data = "angle".data) = False := eq_false (by decide)
  simp [h1, h2]

/-- C8 (amended): entering the atoms reversed gives the identical canonical
atom list for distance and angle always, and for dihedral whenever the two
middle atoms differ; the canonical list always satisfies first ≤ last for
distance, first ≤ third for angle and second ≤ third for dihedral (with
equality in the degenerate cases). -/
theorem c8_canonical_order (a b c d : ℤ) :
    (canonDAD "distance".data [b, a] = canonDAD "distance".data [a, b] ∧
      (canonDAD "distance".data [a, b]).getD 0 0 ≤ (canonDAD "distance".data [a, b]).getD 1 0) ∧
    (canonDAD "angle".data [c, b, a] = canonDAD "angle".data [a, b, c] ∧
      (canonDAD "angle".data [a, b, c]).getD 0 0 ≤ (canonDAD "angle".data [a, b, c]).getD 2 0) ∧
    ((b ≠ c →
      canonDAD "dihedral".data [d, c, b, a] = canonDAD "dihedral".data [a, b, c, d]) ∧
      (canonDAD "dihedral".data [a, b, c, d]).getD 1 0 ≤
        (canonDAD "dihedral".data [a, b, c, d]).getD 2 0) := by
  refine ⟨⟨?_, ?_⟩, ⟨?_, ?_⟩, ⟨?_, ?_⟩⟩
  · rw [canonDAD_distance, canonDAD_distance]
    simp only [List.getD_cons_zero, List.getD_cons_succ]
    rcases lt_trichotomy a b with h | h | h
    · rw [if_pos (by omega), if_neg (by omega)]
      simp
    · subst h
      simp
    · rw [if_neg (by omega), if_pos (by omega)]
      simp
  · rw [canonDAD_distance]
    simp only [List.getD_cons_zero, List.getD_cons_succ]
    by_cases h : a > b
    · rw [if_pos h]
      simp only [List.reverse_cons, List.reverse_nil, List.nil_append, List.cons_append,
        List.getD_cons_zero, List.getD_cons_succ]
      omega
    · rw [if_neg h]
      simp only [List.getD_cons_zero, List.getD_cons_succ]
      omega
  · rw [canonDAD_angle, canonDAD_angle]
    simp only [List.getD_cons_zero, List.getD_cons_succ]
    rcases lt_trichotomy a c with h | h | h
    · rw [if_pos (by omega), if_neg (by omega)]
      simp
    · subst h
      simp
    · rw [if_neg (by omega), if_pos (by omega)]
      simp
  · rw [canonDAD_angle]
    simp only [List.getD_cons_zero, List.getD_cons_succ]
    by_cases h : a > c
    · rw [if_pos h]
      simp only [List.reverse_cons, List.reverse_nil, List.nil_append, List.cons_append,
        List.getD_cons_zero, List.getD_cons_succ]
      omega
    · rw [if_neg h]
      simp only [List.getD_cons_zero, List.getD_cons_succ]
      omega
  · intro hbc
    rw [canonDAD_dihedral, canonDAD_dihedral]
    simp only [List.getD_cons_zero, List.getD_cons_succ]
    rcases lt_trichotomy b c with h | h | h
    · rw [if_pos (by omega), if_neg (by omega)]
      simp
    · exact absurd h hbc
    · rw [if_neg (by omega), if_pos (by omega)]
      simp
  · rw [canonDAD_dihedral]
    simp only [List.getD_cons_zero, List.getD_cons_succ]
    by_cases h : b > c
    · rw [if_pos h]
      simp only [List.reverse_cons, List.reverse_nil, List.nil_append, List.cons_append,
        List.getD_cons_zero, List.getD_cons_succ]
      omega
    · rw [if_neg h]
      simp only [List.getD_cons_zero, List.getD_cons_succ]
      omega

/-- C8 witness: the dihedral reversal identity applied at distinct middle
atoms. -/
theorem c8_witness :
    canonDAD "dihedral".data [3, 2, 1, 0] = canonDAD "dihedral".data [0, 1, 2, 3] := by
  exact (c8_canonical_order 0 1 2 3).2.2.1 (by decide)

/-- C8 counterexample: a dihedral whose two middle atoms coincide compiles to
different coordinate objects when the user enters the atoms reversed, so the
claimed order-independence fails. -/
theorem c8_degenerate_dihedral_counterexample :
    parse_constraints P0 mol4 "$freeze\ndihedral 1 2 2 3" =
      Except.ok ([Obj.nAry .Dihedral [0, 1, 1, 2]], [[none]]) ∧
    parse_constraints P0 mol4 "$freeze\ndihedral 3 2 2 1" =
      Except.ok ([Obj.nAry .Dihedral [2, 1, 1, 0]], [[none]]) ∧
    (Obj.nAry CTag.Dihedral [0, 1, 1, 2] : Obj) ≠ Obj.nAry CTag.Dihedral [2, 1, 1, 0] := by
  refine ⟨by decide, by decide, by decide⟩

/-! ### Claim C5 -/

/-- C5: the rotation weight of lines 563-565 multiplies the coordinate array
by `ang2bohr` a second time (line 433 already converted it to Bohr), so the
squared weight handed to the square root is `ang2bohr ^ 2` times the spec's
squared radius of gyration, not equal to it.  The first conjunct evaluates the
compiler on a two-atom molecule: the constructed rotation objects carry
exactly the doubly converted weight. -/
theorem c5_rotation_rg_double_conversion :
    (∀ P : Prims,
      parse_constraints P mol2 "$freeze\nrotation 1-2" =
        Except.ok
          ([Obj.rotation .RotA [0, 1] (mol2.xyzAng.map (· * ang2bohr))
              (P.sqrtQ (rotRGSq (mol2.xyzAng.map (· * ang2bohr)) [0, 1])),
            Obj.rotation .RotB [0, 1] (mol2.xyzAng.map (· * ang2bohr))
              (P.sqrtQ (rotRGSq (mol2.xyzAng.map (· * ang2bohr)) [0, 1])),
            Obj.rotation .RotC [0, 1] (mol2.xyzAng.map (· * ang2bohr))
              (P.sqrtQ (rotRGSq (mol2.xyzAng.map (· * ang2bohr)) [0, 1]))],
           [[none, none, none]])) ∧
    rotRGSq (mol2.xyzAng.map (· * ang2bohr)) [0, 1] =
      ang2bohr ^ 2 * specRGSq mol2.xyzAng [0, 1] ∧
    rotRGSq (mol2.xyzAng.map (· * ang2bohr)) [0, 1] ≠ specRGSq mol2.xyzAng [0, 1] := by
  refine ⟨fun P => rfl, ?_, ?_⟩
  · simp only [mol2, rotRGSq, specRGSq, rgSqOf, rowsOf, List.map_cons, List.map_nil,
      List.getD_cons_zero, List.getD_cons_succ, List.sum_cons, List.sum_nil, List.length_cons,
      List.length_nil, ang2bohr]
    norm_num
  · simp only [mol2, rotRGSq, specRGSq, rgSqOf, rowsOf, List.map_cons, List.map_nil,
      List.getD_cons_zero, List.getD_cons_succ, List.sum_cons, List.sum_nil, List.length_cons,
      List.length_nil, ang2bohr]
    norm_num

/-! ### Claim C9 -/

theorem processDecl_unknown_mode (P : Prims) (mol : Molecule) (coords : List ℚ)
    (st : PState) (mode : Line)
    (h4 : mode ≠ "freeze".data) (h5 : mode ≠ "set".data) (h6 : mode ≠ "scan".data) :
    processDecl P mol coords mode st "distance 1 2".data =
      Except.error (Err.unboundLocal "ntok") := by
  have ht : tokenizeLn "distance 1 2".data = ["distance".data, "1".data, "2".data] := by decide
  have hn : normKey "distance".data = "distance".data := by decide
  have hk : classDict "distance".data = some ([CTag.Distance], 2) := by decide
  have hmode : ntokOf mode "distance".data [CTag.Distance] 2 = none := by
    unfold ntokOf
    rw [if_neg h4, if_neg h5, if_neg h6]
  simp only [processDecl, ht, hn, hk, hmode]

/-- C9: a line starting with `$` sets the mode to its text with every `$`
character removed, with no validation against freeze/set/scan; an
unrecognized marker such as `$frozen` followed by a declaration then fails
with the unbound-local error on `ntok` rather than a grammar error. -/
theorem c9_unvalidated_mode (P : Prims) (mol : Molecule) (mu : Line)
    (h1 : containsSeq "$options".data ('$' :: mu) = false)
    (h2 : stripLine ('$' :: mu) = '$' :: mu)
    (h3 : mu.all (· ≠ '$') = true)
    (h4 : mu ≠ "freeze".data) (h5 : mu ≠ "set".data) (h6 : mu ≠ "scan".data) :
    (∀ (st : PState) (coords : List ℚ), st.inOptions = false →
      processLine P mol coords st ('$' :: mu) = Except.ok { st with mode := some mu }) ∧
    parseLinesC P mol ['$' :: mu, "distance 1 2".data] =
      Except.error (Err.unboundLocal "ntok") := by
  have hall : ∀ x ∈ mu, (decide (x ≠ '$')) = true := List.all_eq_true.mp h3
  have hfil : ('$' :: mu).filter (· ≠ '$') = mu := by
    rw [List.filter_cons]
    have hdol : (decide (('$' : Char) ≠ '$')) = false := by decide
    rw [hdol]
    simp only [Bool.false_eq_true, if_false]
    exact List.filter_eq_self.mpr hall
  have part1 : ∀ (st : PState) (coords : List ℚ), st.inOptions = false →
      processLine P mol coords st ('$' :: mu) = Except.ok { st with mode := some mu } := by
    intro st coords hst
    obtain ⟨m0, io0, o0, v0⟩ := st
    simp only at hst
    subst hst
    simp only [processLine, h1, Bool.false_eq_true, if_false, h2, List.length_cons,
      List.headD_cons, hfil]
    rw [if_neg (by omega)]
    simp
  refine ⟨part1, ?_⟩
  have hrun : runLines P mol (mol.xyzAng.map (· * ang2bohr)) ⟨none, false, [], []⟩
      ['$' :: mu, "distance 1 2".data] = Except.error (Err.unboundLocal "ntok") := by
    rw [runLines]
    rw [part1 ⟨none, false, [], []⟩ (mol.xyzAng.map (· * ang2bohr)) rfl]
    show runLines P mol (mol.xyzAng.map (· * ang2bohr)) ⟨some mu, false, [], []⟩
        ["distance 1 2".data] = Except.error (Err.unboundLocal "ntok")
    rw [runLines]
    have hd : processLine P mol (mol.xyzAng.map (· * ang2bohr)) ⟨some mu, false, [], []⟩
        "distance 1 2".data =
        processDecl P mol (mol.xyzAng.map (· * ang2bohr)) mu ⟨some mu, false, [], []⟩
          "distance 1 2".data := rfl
    rw [hd, processDecl_unknown_mode P mol _ _ mu h4 h5 h6]
  unfold parseLinesC parseCore
  rw [hrun]

/-- C9 witness: the general statement applied at the marker `$frozen`. -/
theorem c9_witness :
    parseLinesC P0 mol3 ["$frozen".data, "distance 1 2".data] =
      Except.error (Err.unboundLocal "ntok") ∧
    processLine P0 mol3 [] ⟨none, false, [], []⟩ "$frozen".data =
      Except.ok { mode := some "frozen".data, inOptions := false, objs := [], vals := [] } := by
  have h := c9_unvalidated_mode P0 mol3 "frozen".data (by decide) (by decide) (by decide)
    (by decide) (by decide) (by decide)
  exact ⟨h.2, h.1 ⟨none, false, [], []⟩ [] rfl⟩

/-! ### Claim C3 -/
theorem rotation_entry (cl : List CTag) (na : ℕ)
    (hk : classDict "rotation".data = some (cl, na)) : cl = [.RotA, .RotB, .RotC] ∧ na = 1 := by
  have h : classDict "rotation".data = some ([CTag.RotA, CTag.RotB, CTag.RotC], 1) := by decide
  rw [h] at hk
  simp only [Option.some.injEq, Prod.mk.injEq] at hk
  exact ⟨hk.1.symm, hk.2.symm⟩

theorem dad_entry (key : Line) (cl : List CTag) (na : ℕ)
    (hd : key = "distance".data ∨ key = "angle".data ∨ key = "dihedral".data)
    (hk : classDict key = some (cl, na)) : cl.length = 1 := by
  rcases hd with rfl | rfl | rfl
  · have h : classDict "distance".data = some ([CTag.Distance], 2) := by decide
    rw [h] at hk
    simp only [Option.some.injEq, Prod.mk.injEq] at hk
    rw [← hk.1]
    decide
  · have h : classDict "angle".data = some ([CTag.Angle], 3) := by decide
    rw [h] at hk
    simp only [Option.some.injEq, Prod.mk.injEq] at hk
    rw [← hk.1]
    decide
  · have h : classDict "dihedral".data = some ([CTag.Dihedral], 4) := by decide
    rw [h] at hk
    simp only [Option.some.injEq, Prod.mk.injEq] at hk
    rw [← hk.1]
    decide

theorem ntokOf_eq_claimExpected (key mode : Line) (cl : List CTag) (na : ℕ)
    (hk : classDict key = some (cl, na))
    (hm : mode = "freeze".data ∨ mode = "set".data ∨ mode = "scan".data) :
    ntokOf mode key cl na = some (claimExpected key mode cl na) := by
  by_cases hrot : key = "rotation".data
  · subst hrot
    obtain ⟨rfl, rfl⟩ := rotation_entry cl na hk
    rcases hm with rfl | rfl | rfl <;> decide
  · by_cases hdad : key = "distance".data ∨ key = "angle".data ∨ key = "dihedral".data
    · have hcl : cl.length = 1 := dad_entry key cl na hdad hk
      unfold ntokOf claimExpected
      rcases hm with rfl | rfl | rfl
      · rw [if_pos rfl, if_neg hrot, if_pos hdad, if_pos rfl]
      · rw [if_neg (by decide), if_pos rfl, if_neg hrot, if_neg hrot, if_pos hdad,
          if_neg (by decide), if_pos rfl]
        rw [hcl]
      · rw [if_neg (by decide), if_neg (by decide), if_pos rfl, if_neg hrot, if_neg hrot,
          if_pos hdad, if_neg (by decide), if_neg (by decide)]
        rw [hcl]
    · unfold ntokOf claimExpected
      rcases hm with rfl | rfl | rfl
      · rw [if_pos rfl, if_neg hrot, if_neg hdad, if_pos rfl]
      · rw [if_neg (by decide), if_pos rfl, if_neg hrot, if_neg hrot, if_neg hdad,
          if_neg (by decide), if_pos rfl]
      · rw [if_neg (by decide), if_neg (by decide), if_pos rfl, if_neg hrot, if_neg hrot,
          if_neg hdad, if_neg (by decide), if_neg (by decide)]

theorem tokenizeLn_nil : tokenizeLn ([] : Line) = [] := rfl

theorem processLine_decl (P : Prims) (mol : Molecule) (coords : List ℚ) (st : PState)
    (line : Line) (m : Line)
    (hopt : containsSeq "$options".data line = false)
    (hio : st.inOptions = false)
    (hstrip : stripLine line = line)
    (hne : line ≠ [])
    (hdol : line.headD ' ' ≠ '$')
    (hmode : st.mode = some m) :
    processLine P mol coords st line = processDecl P mol coords m st line := by
  obtain ⟨m0, io0, o0, v0⟩ := st
  simp only at hio hmode
  subst hio
  subst hmode
  simp only [processLine, hopt, Bool.false_eq_true, if_false]
  rw [hstrip]
  rw [if_neg (fun hc => hne (List.length_eq_zero.mp hc))]
  rw [if_neg hdol]

theorem processDecl_tokenCount (P : Prims) (mol : Molecule) (coords : List ℚ) (st : PState)
    (mode line : Line) (s0 : Line) (rest : List Line) (cl : List CTag) (na : ℕ)
    (hm : mode = "freeze".data ∨ mode = "set".data ∨ mode = "scan".data)
    (h4 : tokenizeLn line = s0 :: rest)
    (h6 : classDict (normKey s0) = some (cl, na))
    (h7 : (s0 :: rest).length ≠ claimExpected (normKey s0) mode cl na + 1) :
    processDecl P mol coords mode st line =
      Except.error (Err.tokenCount (String.mk line)
        (claimExpected (normKey s0) mode cl na + 1) (s0 :: rest).length) := by
  simp only [processDecl, h4, h6, ntokOf_eq_claimExpected _ _ _ _ h6 hm]
  rw [if_pos h7]

/-- C3: a declaration line whose token count does not match the mode- and
keyword-determined expectation is rejected with an error naming the line and
the exact expected and actual token counts, where the expected count after
the keyword follows exactly the table of the claim (`claimExpected`). -/
theorem c3_token_count_error (P : Prims) (mol : Molecule) (mode line : Line)
    (s0 : Line) (rest : List Line) (cl : List CTag) (na : ℕ)
    (hm : mode = "freeze".data ∨ mode = "set".data ∨ mode = "scan".data)
    (hopt : containsSeq "$options".data line = false)
    (hstrip : stripLine line = line)
    (hdol : line.headD ' ' ≠ '$')
    (h4 : tokenizeLn line = s0 :: rest)
    (h6 : classDict (normKey s0) = some (cl, na))
    (h7 : (s0 :: rest).length ≠ claimExpected (normKey s0) mode cl na + 1) :
    parseLinesC P mol ['$' :: mode, line] =
      Except.error (Err.tokenCount (String.mk line)
        (claimExpected (normKey s0) mode cl na + 1) (s0 :: rest).length) := by
  have hne : line ≠ [] := by
    intro h
    rw [h, tokenizeLn_nil] at h4
    cases h4
  have hmod : processLine P mol (mol.xyzAng.map (· * ang2bohr)) ⟨none, false, [], []⟩
      ('$' :: mode) = Except.ok ⟨some mode, false, [], []⟩ := by
    rcases hm with rfl | rfl | rfl <;> rfl
  have hdecl : processLine P mol (mol.xyzAng.map (· * ang2bohr)) ⟨some mode, false, [], []⟩
      line = Except.error (Err.tokenCount (String.mk line)
        (claimExpected (normKey s0) mode cl na + 1) (s0 :: rest).length) := by
    rw [processLine_decl P mol _ _ line mode hopt rfl hstrip hne hdol rfl]
    exact processDecl_tokenCount P mol _ _ mode line s0 rest cl na hm h4 h6 h7
  unfold parseLinesC parseCore
  rw [runLines, hmod]
  show (match runLines P mol (mol.xyzAng.map (· * ang2bohr)) ⟨some mode, false, [], []⟩ [line]
      with
    | Except.error e => Except.error e
    | Except.ok st =>
      if st.objs.length ≠ st.vals.length then Except.error Err.internalMismatch
      else Except.ok (st.objs.flatten, valgrpsOf st.vals)) = _
  rw [runLines, hdecl]

/-- C3 witness: `distance 1 2` under `$set` has 3 tokens where 4 are
expected. -/
theorem c3_witness :
    parseLinesC P0 mol3 ["$set".data, "distance 1 2".data] =
      Except.error (Err.tokenCount "distance 1 2" 4 3) := by
  have h := c3_token_count_error P0 mol3 "set".data "distance 1 2".data "distance".data
    ["1".data, "2".data] [CTag.Distance] 2 (by decide) (by decide) (by decide) (by decide)
    (by decide) (by decide) (by decide)
  exact h

/-! ### Claim C7 -/
theorem runLines_earlyDecl (P : Prims) (mol : Molecule) (coords : List ℚ) :
    ∀ (lines : List Line) (st : PState), st.mode = none → st.inOptions = false →
      earlyDecl lines = true →
      runLines P mol coords st lines = Except.error Err.modeNotSet := by
  intro lines
  induction lines with
  | nil =>
    intro st h1 h2 h3
    simp [earlyDecl] at h3
  | cons l ls ih =>
    intro st h1 h2 h3
    obtain ⟨m0, io0, o0, v0⟩ := st
    simp only at h1 h2
    subst h1
    subst h2
    unfold earlyDecl at h3
    by_cases hopt : containsSeq "$options".data l = true
    · rw [if_pos hopt] at h3
      cases h3
    · simp only [Bool.not_eq_true] at hopt
      rw [if_neg (by rw [hopt]; exact Bool.false_ne_true)] at h3
      rw [runLines]
      by_cases hlen : (stripLine l).length = 0
      · rw [if_pos hlen] at h3
        have hstep : processLine P mol coords ⟨none, false, o0, v0⟩ l =
            Except.ok ⟨none, false, o0, v0⟩ := by
          simp only [processLine, hopt, Bool.false_eq_true, if_false]
          rw [if_pos hlen]
        rw [hstep]
        exact ih ⟨none, false, o0, v0⟩ rfl rfl h3
      · rw [if_neg hlen] at h3
        by_cases hdol : (stripLine l).headD ' ' = '$'
        · rw [if_pos hdol] at h3
          cases h3
        · have hstep : processLine P mol coords ⟨none, false, o0, v0⟩ l =
              Except.error Err.modeNotSet := by
            simp only [processLine, hopt, Bool.false_eq_true, if_false]
            rw [if_neg hlen]
            rw [if_neg hdol]
          rw [hstep]

/-- C7: an input whose first effective line is a declaration (non-blank after
comment stripping, before any options marker or `$`-mode line) is rejected
with the mode-not-set error, so no constraint objects are produced. -/
theorem c7_mode_before_decl (P : Prims) (mol : Molecule) (s : String)
    (h : earlyDecl (splitSep '\n' s.data) = true) :
    parse_constraints P mol s = Except.error Err.modeNotSet := by
  unfold parse_constraints parseLinesC parseCore
  rw [runLines_earlyDecl P mol _ (splitSep '\n' s.data) ⟨none, false, [], []⟩ rfl rfl h]

/-- C7 witness: a declaration with no preceding mode marker. -/
theorem c7_witness :
    parse_constraints P0 mol3 "distance 1 2\n$freeze" = Except.error Err.modeNotSet :=
  c7_mode_before_decl P0 mol3 "distance 1 2\n$freeze" (by decide)

/-! ### Generic list lemmas for the grid invariants -/

theorem forall2_of_all {a b : Type} {R : a → b → Prop} :
    ∀ (l1 : List a) (l2 : List b), l1.length = l2.length →
      (∀ x ∈ l1, ∀ y ∈ l2, R x y) → List.Forall₂ R l1 l2 := by
  intro l1
  induction l1 with
  | nil =>
    intro l2 hl _
    rw [List.eq_nil_of_length_eq_zero hl.symm]
    exact List.Forall₂.nil
  | cons x l1 ih =>
    intro l2 hl hall
    match l2 with
    | [] => simp at hl
    | y :: l2 =>
      refine List.Forall₂.cons (hall x (by simp) y (by simp)) (ih l2 (by simpa using hl) ?_)
      intro x2 hx2 y2 hy2
      exact hall x2 (by simp [hx2]) y2 (by simp [hy2])

theorem forall2_append {a b : Type} {R : a → b → Prop} {l1 l3 : List a} {l2 l4 : List b}
    (h1 : List.Forall₂ R l1 l2) (h2 : List.Forall₂ R l3 l4) :
    List.Forall₂ R (l1 ++ l3) (l2 ++ l4) := by
  induction h1 with
  | nil => exact h2
  | cons hxy _ ih => exact List.Forall₂.cons hxy ih

theorem mem_listProduct {a : Type} :
    ∀ (L : List (List a)) (sel : List a), sel ∈ listProduct L →
      List.Forall₂ (fun x g => x ∈ g) sel L := by
  intro L
  induction L with
  | nil =>
    intro sel hsel
    simp only [listProduct, List.mem_singleton] at hsel
    rw [hsel]
    exact List.Forall₂.nil
  | cons g gs ih =>
    intro sel hsel
    simp only [listProduct, List.mem_flatMap, List.mem_map] at hsel
    obtain ⟨x, hx, r, hr, hsel⟩ := hsel
    rw [← hsel]
    exact List.Forall₂.cons hx (ih r hr)

theorem sel_sum_lengths {objs : List (List Obj)} {vals : List (List (List (Option ℚ)))}
    {sel : List (List (Option ℚ))}
    (h1 : List.Forall₂ lenRel objs vals)
    (h2 : List.Forall₂ (fun stp vg => stp ∈ vg) sel vals) :
    (sel.map List.length).sum = (objs.map List.length).sum := by
  induction h1 generalizing sel with
  | nil =>
    cases h2
    rfl
  | cons hR hrest ih =>
    cases h2 with
    | cons hmem htail =>
      rename_i og vg objs2 vals2 stp sel2
      simp only [List.map_cons, List.sum_cons]
      rw [hR stp hmem, ih htail]

theorem listProduct_singleton {a : Type} (B : List (List a)) :
    listProduct [B] = B.map (fun y => [y]) := by
  show B.flatMap (fun x => [[x]]) = B.map (fun y => [y])
  induction B with
  | nil => rfl
  | cons y B ih => simp only [List.flatMap_cons, List.singleton_append, List.map_cons, ih]

theorem valgrps_pair (A B : List (List (Option ℚ))) :
    valgrpsOf [A, B] = A.flatMap (fun x => B.map (fun y => x ++ y)) := by
  unfold valgrpsOf
  have h1 : listProduct [A, B] = A.flatMap (fun x => (B.map (fun y => [y])).map (x :: ·)) := by
    unfold listProduct
    rw [listProduct_singleton]
  rw [h1]
  rw [List.map_flatMap]
  congr 1
  funext x
  simp

theorem flatMap_const_length {a b : Type} (A : List a) (f : a → List b) (n : ℕ)
    (h : ∀ x ∈ A, (f x).length = n) : (A.flatMap f).length = A.length * n := by
  induction A with
  | nil => simp
  | cons x A ih =>
    simp only [List.flatMap_cons, List.length_append, List.length_cons]
    rw [h x (by simp), ih (fun y hy => h y (by simp [hy]))]
    ring

theorem exMapM_ok_length {a b : Type} (f : a → Except Err b) :
    ∀ (l : List a) (l2 : List b), exMapM f l = Except.ok l2 → l2.length = l.length := by
  intro l
  induction l with
  | nil =>
    intro l2 h
    simp only [exMapM] at h
    rw [← Except.ok.inj h]
    rfl
  | cons x xs ih =>
    intro l2 h
    simp only [exMapM] at h
    cases hx : f x with
    | error e => rw [hx] at h; cases h
    | ok y =>
      rw [hx] at h
      cases hrest : exMapM f xs with
      | error e => rw [hrest] at h; cases h
      | ok ys =>
        rw [hrest] at h
        rw [← Except.ok.inj h]
        simp [ih ys hrest]

theorem floatSlice_ok_length (s : List Line) (lo n : ℕ) (x1 : List ℚ)
    (h : floatSlice s lo n = Except.ok x1) : x1.length = min n (s.length - lo) := by
  unfold floatSlice at h
  cases hx : exMapM floatTok ((s.drop lo).take n) with
  | error e => rw [hx] at h; cases h
  | ok qs =>
    rw [hx] at h
    have := exMapM_ok_length floatTok _ _ hx
    rw [← Except.ok.inj h, List.length_map, this, List.length_take, List.length_drop]

/-! ### Branch characterizations for the loop invariants -/

theorem atomBranch_spec (classes : List CTag) (mode : Line) (s : List Line) (atoms : List ℤ)
    (O : List (List Obj)) (V : List (List (List (Option ℚ))))
    (h : atomBranch classes mode s atoms = Except.ok (O, V)) :
    List.Forall₂ lenRel O V ∧
    (∀ g ∈ O, ∀ o ∈ g, ∀ i ∈ objAtoms o, i ∈ atoms) := by
  have range : ∀ g ∈ classes.map (fun cls => atoms.map (fun a => Obj.single cls a 1)),
      ∀ o ∈ g, ∀ i ∈ objAtoms o, i ∈ atoms := by
    intro g hg o ho i hi
    obtain ⟨cls, _, hcls⟩ := List.mem_map.mp hg
    rw [← hcls] at ho
    obtain ⟨a, ha, hobj⟩ := List.mem_map.mp ho
    rw [← hobj] at hi
    simp only [objAtoms, List.mem_singleton] at hi
    rw [hi]
    exact ha
  unfold atomBranch at h
  by_cases hf : mode = "freeze".data
  · rw [if_pos hf] at h
    simp only [Except.ok.injEq, Prod.mk.injEq] at h
    obtain ⟨hO, hV⟩ := h
    subst hO
    subst hV
    refine ⟨forall2_of_all _ _ (by simp) ?_, range⟩
    intro g hg vg hvg stp hstp
    obtain ⟨cls, _, hcls⟩ := List.mem_map.mp hg
    obtain ⟨cls2, _, hcls2⟩ := List.mem_map.mp hvg
    rw [← hcls2] at hstp
    simp only [List.mem_singleton] at hstp
    rw [hstp, ← hcls]
    simp
  · rw [if_neg hf] at h
    by_cases hs : mode = "set".data
    · rw [if_pos hs] at h
      split at h
      · exact absurd h (by simp)
      · simp only [Except.ok.injEq, Prod.mk.injEq] at h
        obtain ⟨hO, hV⟩ := h
        subst hO
        subst hV
        refine ⟨forall2_of_all _ _ (by simp) ?_, range⟩
        intro g hg vg hvg stp hstp
        obtain ⟨cls, _, hcls⟩ := List.mem_map.mp hg
        obtain ⟨i, _, hi⟩ := List.mem_map.mp hvg
        rw [← hi] at hstp
        simp only [List.mem_singleton] at hstp
        rw [hstp, ← hcls]
        simp
    · rw [if_neg hs] at h
      split at h
      · exact absurd h (by simp)
      · split at h
        · exact absurd h (by simp)
        · split at h
          · exact absurd h (by simp)
          · split at h
            · exact absurd h (by simp)
            · simp only [Except.ok.injEq, Prod.mk.injEq] at h
              obtain ⟨hO, hV⟩ := h
              subst hO
              subst hV
              refine ⟨forall2_of_all _ _ (by simp) ?_, range⟩
              intro g hg vg hvg stp hstp
              obtain ⟨cls, _, hcls⟩ := List.mem_map.mp hg
              obtain ⟨i, _, hi⟩ := List.mem_map.mp hvg
              rw [← hi] at hstp
              obtain ⟨v, _, hv⟩ := List.mem_map.mp hstp
              rw [← hv, ← hcls]
              simp

theorem transBranch_spec (classes : List CTag) (mode : Line) (s : List Line) (atoms : List ℤ)
    (O : List (List Obj)) (V : List (List (List (Option ℚ))))
    (h : transBranch classes mode s atoms = Except.ok (O, V))
    (hset : mode = "set".data → classes.length + 2 ≤ s.length)
    (hscan : mode ≠ "freeze".data → mode ≠ "set".data → 2 * classes.length + 2 ≤ s.length) :
    List.Forall₂ lenRel O V ∧
    (∀ g ∈ O, ∀ o ∈ g, ∀ i ∈ objAtoms o, i ∈ atoms) := by
  unfold transBranch at h
  split at h
  · exact absurd h (by simp)
  · rename_i objsNew hobjs
    have hgrp : ∃ grp, objsNew = [grp] ∧ grp.length = classes.length ∧
        (∀ o ∈ grp, ∀ i ∈ objAtoms o, i ∈ atoms) := by
      split at hobjs
      · have hrw := Except.ok.inj hobjs
        refine ⟨_, hrw.symm, by simp, ?_⟩
        intro o ho i hi
        obtain ⟨cls, _, hcls⟩ := List.mem_map.mp ho
        rw [← hcls] at hi
        simpa [objAtoms] using hi
      · split at hobjs
        · exact absurd hobjs (by simp)
        · rename_i a tail
          have hrw := Except.ok.inj hobjs
          refine ⟨_, hrw.symm, by simp, ?_⟩
          intro o ho i hi
          obtain ⟨cls, _, hcls⟩ := List.mem_map.mp ho
          rw [← hcls] at hi
          simp only [objAtoms, List.mem_singleton] at hi
          rw [hi]
          simp
    obtain ⟨grp, rfl, hlen, hrange⟩ := hgrp
    have range : ∀ g ∈ [grp], ∀ o ∈ g, ∀ i ∈ objAtoms o, i ∈ atoms := by
      intro g hg
      rw [List.mem_singleton.mp hg]
      exact hrange
    by_cases hf : mode = "freeze".data
    · rw [if_pos hf] at h
      simp only [Except.ok.injEq, Prod.mk.injEq] at h
      obtain ⟨hO, hV⟩ := h
      subst hO
      subst hV
      refine ⟨forall2_of_all _ _ (by simp) ?_, range⟩
      intro g hg vg hvg stp hstp
      rw [List.mem_singleton.mp hg]
      rw [List.mem_singleton.mp hvg] at hstp
      rw [List.mem_singleton.mp hstp]
      simp [hlen]
    · rw [if_neg hf] at h
      by_cases hst : mode = "set".data
      · rw [if_pos hst] at h
        split at h
        · exact absurd h (by simp)
        · rename_i x1 hx1
          simp only [Except.ok.injEq, Prod.mk.injEq] at h
          obtain ⟨hO, hV⟩ := h
          subst hO
          subst hV
          refine ⟨forall2_of_all _ _ (by simp) ?_, range⟩
          intro g hg vg hvg stp hstp
          rw [List.mem_singleton.mp hg]
          rw [List.mem_singleton.mp hvg] at hstp
          rw [List.mem_singleton.mp hstp]
          rw [List.length_map, hlen]
          rw [floatSlice_ok_length s 2 classes.length x1 hx1]
          have := hset hst
          omega
      · rw [if_neg hst] at h
        split at h
        · exact absurd h (by simp)
        · rename_i x1 hx1
          split at h
          · exact absurd h (by simp)
          · rename_i x2 hx2
            split at h
            · exact absurd h (by simp)
            · rename_i nstep hx3
              split at h
              · exact absurd h (by simp)
              · rename_i valscan hx4
                simp only [Except.ok.injEq, Prod.mk.injEq] at h
                obtain ⟨hO, hV⟩ := h
                subst hO
                subst hV
                refine ⟨forall2_of_all _ _ (by simp) ?_, range⟩
                intro g hg vg hvg stp hstp
                rw [List.mem_singleton.mp hg]
                rw [List.mem_singleton.mp hvg] at hstp
                obtain ⟨row, hrow, hr⟩ := List.mem_map.mp hstp
                rw [← hr, List.length_map, hlen]
                rw [ods_row_length x1 x2 nstep valscan hx4 row hrow]
                rw [floatSlice_ok_length s 2 classes.length x1 hx1]
                have := hscan hf hst
                omega

theorem dadBranch_spec (P : Prims) (key : Line) (classes : List CTag) (nAtom : ℕ)
    (mode : Line) (s : List Line) (na : ℕ)
    (O : List (List Obj)) (V : List (List (List (Option ℚ))))
    (h : dadBranch P key classes nAtom mode s na = Except.ok (O, V)) :
    List.Forall₂ lenRel O V ∧
    (∀ g ∈ O, ∀ o ∈ g, ∀ i ∈ objAtoms o, 0 ≤ i ∧ i < (na : ℤ)) := by
  unfold dadBranch at h
  split at h
  · exact absurd h (by simp)
  · split at h
    · exact absurd h (by simp)
    · rename_i atomsRaw hraw
      by_cases hneg : (canonDAD key atomsRaw).any (· < 0) = true
      · rw [if_pos hneg] at h
        exact absurd h (by simp)
      · rw [if_neg hneg] at h
        by_cases hhi : (canonDAD key atomsRaw).any (· ≥ (na : ℤ)) = true
        · rw [if_pos hhi] at h
          exact absurd h (by simp)
        · rw [if_neg hhi] at h
          simp only [Bool.not_eq_true, List.any_eq_false, decide_eq_true_eq] at hneg hhi
          have range : ∀ g ∈ [[Obj.nAry (classes.getD 0 .Distance) (canonDAD key atomsRaw)]],
              ∀ o ∈ g, ∀ i ∈ objAtoms o, 0 ≤ i ∧ i < (na : ℤ) := by
            intro g hg o ho i hi
            rw [List.mem_singleton.mp hg] at ho
            rw [List.mem_singleton.mp ho] at hi
            simp only [objAtoms] at hi
            exact ⟨by have := hneg i hi; omega, by have := hhi i hi; omega⟩
          have lrel : ∀ (vals1 : List (List (List (Option ℚ)))),
              (∀ vg ∈ vals1, ∀ stp ∈ vg, stp.length = 1) → vals1.length = 1 →
              List.Forall₂ lenRel
                [[Obj.nAry (classes.getD 0 .Distance) (canonDAD key atomsRaw)]] vals1 := by
            intro vals1 hsteps hlen1
            refine forall2_of_all _ _ (by simp [hlen1]) ?_
            intro g hg vg hvg stp hstp
            rw [List.mem_singleton.mp hg]
            rw [hsteps vg hvg stp hstp]
            rfl
          by_cases hf : mode = "freeze".data
          · rw [if_pos hf] at h
            simp only [Except.ok.injEq, Prod.mk.injEq] at h
            obtain ⟨hO, hV⟩ := h
            subst hO
            subst hV
            refine ⟨lrel _ ?_ rfl, range⟩
            intro vg hvg stp hstp
            rw [List.mem_singleton.mp hvg] at hstp
            rw [List.mem_singleton.mp hstp]
            rfl
          · rw [if_neg hf] at h
            repeat' split at h
            all_goals first
              | exact Except.noConfusion h
              | (simp only [Except.ok.injEq, Prod.mk.injEq] at h
                 obtain ⟨hO, hV⟩ := h
                 subst hO
                 subst hV
                 refine ⟨lrel _ ?_ rfl, range⟩
                 intro vg hvg stp hstp
                 rw [List.mem_singleton.mp hvg] at hstp
                 first
                   | (rw [List.mem_singleton.mp hstp]; rfl)
                   | (obtain ⟨v, _, hv⟩ := List.mem_map.mp hstp
                      rw [← hv]
                      rfl))

theorem rotBranch_spec (P : Prims) (classes : List CTag) (mode : Line) (s : List Line)
    (coords : List ℚ) (O : List (List Obj)) (V : List (List (List (Option ℚ))))
    (h : rotBranch P classes mode s coords = Except.ok (O, V))
    (hcl : classes.length = 3) :
    List.Forall₂ lenRel O V ∧
    (∀ g ∈ O, ∀ o ∈ g, ∀ i ∈ objAtoms o, 0 ≤ i ∧ i < ((coords.length / 3 : ℕ) : ℤ)) := by
  unfold rotBranch at h
  split at h
  · exact absurd h (by simp)
  · rename_i atomsN hatoms
    by_cases hmod3 : coords.length % 3 ≠ 0
    · rw [if_pos hmod3] at h
      exact absurd h (by simp)
    · rw [if_neg hmod3] at h
      by_cases hhi : atomsN.any (· ≥ coords.length / 3) = true
      · rw [if_pos hhi] at h
        exact absurd h (by simp)
      · rw [if_neg hhi] at h
        simp only [Bool.not_eq_true, List.any_eq_false, decide_eq_true_eq] at hhi
        have range : ∀ i ∈ atomsN.map Int.ofNat, 0 ≤ i ∧ i < ((coords.length / 3 : ℕ) : ℤ) := by
          intro i hi
          obtain ⟨a, ha, hia⟩ := List.mem_map.mp hi
          have := hhi a ha
          subst hia
          constructor
          · exact Int.ofNat_nonneg a
          · have hlt : a < coords.length / 3 := by omega
            show (a : ℤ) < ((coords.length / 3 : ℕ) : ℤ)
            exact_mod_cast hlt
        by_cases hf : mode = "freeze".data
        · rw [if_pos hf] at h
          simp only [Except.ok.injEq, Prod.mk.injEq] at h
          obtain ⟨hO, hV⟩ := h
          subst hO
          subst hV
          constructor
          · refine forall2_of_all _ _ (by simp) ?_
            intro g hg vg hvg stp hstp
            obtain ⟨cls, _, hcls⟩ := List.mem_map.mp hg
            obtain ⟨cls2, _, hcls2⟩ := List.mem_map.mp hvg
            rw [← hcls2] at hstp
            rw [List.mem_singleton.mp hstp, ← hcls]
            rfl
          · intro g hg o ho i hi
            obtain ⟨cls, _, hcls⟩ := List.mem_map.mp hg
            rw [← hcls] at ho
            rw [List.mem_singleton.mp ho] at hi
            simp only [objAtoms] at hi
            exact range i hi
        · rw [if_neg hf] at h
          split at h
          · exact absurd h (by simp)
          · split at h
            · exact absurd h (by simp)
            · split at h
              · exact absurd h (by simp)
              · split at h
                · exact absurd h (by simp)
                · have hrange2 : ∀ g ∈ [classes.map (fun cls =>
                      Obj.rotation cls (atomsN.map Int.ofNat) coords
                        (P.sqrtQ (rotRGSq coords atomsN)))],
                      ∀ o ∈ g, ∀ i ∈ objAtoms o, 0 ≤ i ∧ i < ((coords.length / 3 : ℕ) : ℤ) := by
                    intro g hg o ho i hi
                    rw [List.mem_singleton.mp hg] at ho
                    obtain ⟨cls, _, hcls⟩ := List.mem_map.mp ho
                    rw [← hcls] at hi
                    simp only [objAtoms] at hi
                    exact range i hi
                  by_cases hst : mode = "set".data
                  · rw [if_pos hst] at h
                    simp only [Except.ok.injEq, Prod.mk.injEq] at h
                    obtain ⟨hO, hV⟩ := h
                    subst hO
                    subst hV
                    refine ⟨forall2_of_all _ _ (by simp) ?_, hrange2⟩
                    intro g hg vg hvg stp hstp
                    rw [List.mem_singleton.mp hg]
                    rw [List.mem_singleton.mp hvg] at hstp
                    rw [List.mem_singleton.mp hstp]
                    simp [hcl]
                  · rw [if_neg hst] at h
                    split at h
                    · exact absurd h (by simp)
                    · split at h
                      · exact absurd h (by simp)
                      · simp only [Except.ok.injEq, Prod.mk.injEq] at h
                        obtain ⟨hO, hV⟩ := h
                        subst hO
                        subst hV
                        refine ⟨forall2_of_all _ _ (by simp) ?_, hrange2⟩
                        intro g hg vg hvg stp hstp
                        rw [List.mem_singleton.mp hg]
                        rw [List.mem_singleton.mp hvg] at hstp
                        obtain ⟨th, _, hth⟩ := List.mem_map.mp hstp
                        rw [← hth]
                        simp [hcl]

/-! ### Invariant preservation through the line loop -/

theorem atomTransKeys_na_one :
    ∀ k ∈ AtomKeysC ++ TransKeysC,
      (classDict k).map Prod.snd = some 1 ∧ k ≠ "rotation".data := by decide

theorem ntokOf_inv (mode key : Line) (cl : List CTag) (na ntok : ℕ)
    (h : ntokOf mode key cl na = some ntok) :
    (mode = "freeze".data ∧ ntok = na) ∨
    (mode = "set".data ∧ ntok = (if key = "rotation".data then na + 4 else na + cl.length)) ∨
    (mode = "scan".data ∧
      ntok = (if key = "rotation".data then na + 6 else na + 2 * cl.length + 1)) := by
  unfold ntokOf at h
  by_cases h1 : mode = "freeze".data
  · rw [if_pos h1] at h
    exact Or.inl ⟨h1, (Option.some.inj h).symm⟩
  · rw [if_neg h1] at h
    by_cases h2 : mode = "set".data
    · rw [if_pos h2] at h
      exact Or.inr (Or.inl ⟨h2, (Option.some.inj h).symm⟩)
    · rw [if_neg h2] at h
      by_cases h3 : mode = "scan".data
      · rw [if_pos h3] at h
        exact Or.inr (Or.inr ⟨h3, (Option.some.inj h).symm⟩)
      · rw [if_neg h3] at h
        cases h

/-- Shorthand for the atom-range invariant of an accumulated state. -/
def RangeProp (na : ℕ) (st : PState) : Prop :=
  ∀ g ∈ st.objs, ∀ o ∈ g, ∀ i ∈ objAtoms o, 0 ≤ i ∧ i < (na : ℤ)

theorem inv_step (st : PState) (O : List (List Obj)) (V : List (List (List (Option ℚ))))
    (na : ℕ) (hf2 : List.Forall₂ lenRel O V)
    (hrange2 : ∀ g ∈ O, ∀ o ∈ g, ∀ i ∈ objAtoms o, 0 ≤ i ∧ i < (na : ℤ)) :
    (List.Forall₂ lenRel st.objs st.vals →
      List.Forall₂ lenRel (st.objs ++ O) (st.vals ++ V)) ∧
    (RangeProp na st →
      ∀ g ∈ st.objs ++ O, ∀ o ∈ g, ∀ i ∈ objAtoms o, 0 ≤ i ∧ i < (na : ℤ)) := by
  constructor
  · intro hinv
    exact forall2_append hinv hf2
  · intro hr g hg o ho i hi
    rcases List.mem_append.mp hg with hg2 | hg2
    · exact hr g hg2 o ho i hi
    · exact hrange2 g hg2 o ho i hi

theorem processDecl_inv (P : Prims) (mol : Molecule) (coords : List ℚ) (mode : Line)
    (st st' : PState) (line : Line)
    (h : processDecl P mol coords mode st line = Except.ok st') :
    (List.Forall₂ lenRel st.objs st.vals → List.Forall₂ lenRel st'.objs st'.vals) ∧
    (coords.length = 3 * mol.na → RangeProp mol.na st → RangeProp mol.na st') := by
  unfold processDecl at h
  split at h
  · exact Except.noConfusion h
  · rename_i s0 stail hts
    split at h
    · exact Except.noConfusion h
    · rename_i classes nAtom hk
      split at h
      · exact Except.noConfusion h
      · rename_i ntok hnt
        split at h
        · exact Except.noConfusion h
        · rename_i hlen
          split at h
          · exact Except.noConfusion h
          · rename_i O V heqBR
            have hst' : st' = { st with objs := st.objs ++ O, vals := st.vals ++ V } :=
              (Except.ok.inj h).symm
            subst hst'
            have hlen2 : (s0 :: stail).length = ntok + 1 := not_ne_iff.mp hlen
            by_cases hak : normKey s0 ∈ AtomKeysC ∨ normKey s0 ∈ TransKeysC
            · rw [if_pos hak] at heqBR
              split at heqBR
              · exact Except.noConfusion heqBR
              · rename_i atoms hres
                split at heqBR
                · exact Except.noConfusion heqBR
                · rename_i hneg
                  split at heqBR
                  · exact Except.noConfusion heqBR
                  · rename_i hge
                    simp only [Bool.not_eq_true, List.any_eq_false, decide_eq_true_eq]
                      at hneg hge
                    have hrangeAtoms : ∀ i ∈ atoms, 0 ≤ i ∧ i < (mol.na : ℤ) := by
                      intro i hi
                      exact ⟨by have := hneg i hi; omega, by have := hge i hi; omega⟩
                    split at heqBR
                    · obtain ⟨hf2, hsub⟩ :=
                        atomBranch_spec classes mode (s0 :: stail) atoms O V heqBR
                      exact inv_step st O V mol.na hf2
                        (fun g hg o ho i hi => hrangeAtoms i (hsub g hg o ho i hi))
                        |>.imp id (fun hx hwf => hx)
                    · rename_i hkA
                      have hkT : normKey s0 ∈ TransKeysC := by
                        rcases hak with hx | hx
                        · exact absurd hx hkA
                        · exact hx
                      have hfacts := atomTransKeys_na_one (normKey s0)
                        (List.mem_append.mpr (Or.inr hkT))
                      have hna1 : nAtom = 1 := by
                        have hmap := hfacts.1
                        rw [hk] at hmap
                        simpa using hmap
                      have hnrot : normKey s0 ≠ "rotation".data := hfacts.2
                      have hset : mode = "set".data →
                          classes.length + 2 ≤ (s0 :: stail).length := by
                        intro hmm
                        rcases ntokOf_inv mode _ _ _ _ hnt with ⟨hm, hv⟩ | ⟨hm, hv⟩ | ⟨hm, hv⟩
                        · rw [hmm] at hm
                          exact absurd hm (by decide)
                        · rw [if_neg hnrot] at hv
                          omega
                        · rw [hmm] at hm
                          exact absurd hm (by decide)
                      have hscan : mode ≠ "freeze".data → mode ≠ "set".data →
                          2 * classes.length + 2 ≤ (s0 :: stail).length := by
                        intro hm1 hm2
                        rcases ntokOf_inv mode _ _ _ _ hnt with ⟨hm, hv⟩ | ⟨hm, hv⟩ | ⟨hm, hv⟩
                        · exact absurd hm hm1
                        · exact absurd hm hm2
                        · rw [if_neg hnrot] at hv
                          omega
                      obtain ⟨hf2, hsub⟩ :=
                        transBranch_spec classes mode (s0 :: stail) atoms O V heqBR hset hscan
                      exact inv_step st O V mol.na hf2
                        (fun g hg o ho i hi => hrangeAtoms i (hsub g hg o ho i hi))
                        |>.imp id (fun hx hwf => hx)
            · rw [if_neg hak] at heqBR
              by_cases hdad : normKey s0 = "distance".data ∨ normKey s0 = "angle".data ∨
                  normKey s0 = "dihedral".data
              · rw [if_pos hdad] at heqBR
                obtain ⟨hf2, hrange2⟩ :=
                  dadBranch_spec P (normKey s0) classes nAtom mode (s0 :: stail) mol.na O V heqBR
                exact inv_step st O V mol.na hf2 hrange2 |>.imp id (fun hx hwf => hx)
              · rw [if_neg hdad] at heqBR
                by_cases hrot : normKey s0 = "rotation".data
                · rw [if_pos hrot] at heqBR
                  have hent : classes = [CTag.RotA, CTag.RotB, CTag.RotC] ∧ nAtom = 1 := by
                    rw [hrot] at hk
                    exact rotation_entry classes nAtom hk
                  obtain ⟨hf2, hrange2⟩ :=
                    rotBranch_spec P classes mode (s0 :: stail) coords O V heqBR
                      (by rw [hent.1]; rfl)
                  constructor
                  · intro hinv
                    exact forall2_append hinv hf2
                  · intro hwf hr g hg o ho i hi
                    rcases List.mem_append.mp hg with hg2 | hg2
                    · exact hr g hg2 o ho i hi
                    · have hx := hrange2 g hg2 o ho i hi
                      rw [hwf] at hx
                      have h3 : (3 * mol.na) / 3 = mol.na := by omega
                      rw [h3] at hx
                      exact hx
                · rw [if_neg hrot] at heqBR
                  have hOV := Except.ok.inj heqBR
                  simp only [Prod.mk.injEq] at hOV
                  obtain ⟨hO, hV⟩ := hOV
                  subst hO
                  subst hV
                  constructor
                  · intro hinv
                    simpa using hinv
                  · intro hwf hr g hg o ho i hi
                    simp only [List.append_nil] at hg
                    exact hr g hg o ho i hi

theorem processLine_inv (P : Prims) (mol : Molecule) (coords : List ℚ)
    (st st' : PState) (raw : Line)
    (h : processLine P mol coords st raw = Except.ok st') :
    (List.Forall₂ lenRel st.objs st.vals → List.Forall₂ lenRel st'.objs st'.vals) ∧
    (coords.length = 3 * mol.na → RangeProp mol.na st → RangeProp mol.na st') := by
  obtain ⟨m0, io0, o0, v0⟩ := st
  unfold processLine at h
  simp only [] at h
  by_cases h1 : containsSeq "$options".data raw
  · rw [if_pos h1] at h
    simp only [] at h
    split at h
    · split at h
      all_goals {
        have hst' := Except.ok.inj h
        subst hst'
        exact ⟨fun hinv => hinv, fun hwf hr => hr⟩
      }
    · rename_i hc
      exact absurd trivial hc
  · rw [if_neg h1] at h
    cases io0
    · simp only [Bool.false_eq_true, if_false] at h
      split at h
      · have hst' := Except.ok.inj h
        subst hst'
        exact ⟨fun hinv => hinv, fun hwf hr => hr⟩
      · split at h
        · have hst' := Except.ok.inj h
          subst hst'
          exact ⟨fun hinv => hinv, fun hwf hr => hr⟩
        · split at h
          · exact Except.noConfusion h
          · exact processDecl_inv P mol coords _ _ st' _ h
    · split at h
      · split at h
        all_goals {
          have hst' := Except.ok.inj h
          subst hst'
          exact ⟨fun hinv => hinv, fun hwf hr => hr⟩
        }
      · rename_i hc
        exact absurd rfl hc

theorem runLines_inv (P : Prims) (mol : Molecule) (coords : List ℚ)
    (lines : List Line) :
    ∀ (st st' : PState), runLines P mol coords st lines = Except.ok st' →
    (List.Forall₂ lenRel st.objs st.vals → List.Forall₂ lenRel st'.objs st'.vals) ∧
    (coords.length = 3 * mol.na → RangeProp mol.na st → RangeProp mol.na st') := by
  induction lines with
  | nil =>
    intro st st' h
    have hst' := Except.ok.inj h
    subst hst'
    exact ⟨fun hinv => hinv, fun hwf hr => hr⟩
  | cons l ls ih =>
    intro st st' h
    unfold runLines at h
    split at h
    · exact Except.noConfusion h
    · rename_i st1 h1
      obtain ⟨ha, hb⟩ := processLine_inv P mol coords st st1 l h1
      obtain ⟨hc, hd⟩ := ih st1 st' h
      exact ⟨fun hinv => hc (ha hinv), fun hwf hr => hd hwf (hb hwf hr)⟩

theorem canonDAD_any (key : Line) (l : List ℤ) (p : ℤ → Bool) :
    (canonDAD key l).any p = l.any p := by
  unfold canonDAD
  simp only []
  by_cases h1 : key = "distance".data ∧ l.getD 0 0 > l.getD 1 0
  · rw [if_pos h1]
    by_cases h2 : key = "angle".data ∧ l.reverse.getD 0 0 > l.reverse.getD 2 0
    · rw [if_pos h2]
      by_cases h3 : key = "dihedral".data ∧ l.reverse.reverse.getD 1 0 > l.reverse.reverse.getD 2 0
      · rw [if_pos h3]
        simp [List.any_reverse]
      · rw [if_neg h3]
        simp [List.any_reverse]
    · rw [if_neg h2]
      by_cases h3 : key = "dihedral".data ∧ l.reverse.getD 1 0 > l.reverse.getD 2 0
      · rw [if_pos h3]
        simp [List.any_reverse]
      · rw [if_neg h3]
        simp [List.any_reverse]
  · rw [if_neg h1]
    by_cases h2 : key = "angle".data ∧ l.getD 0 0 > l.getD 2 0
    · rw [if_pos h2]
      by_cases h3 : key = "dihedral".data ∧ l.reverse.getD 1 0 > l.reverse.getD 2 0
      · rw [if_pos h3]
        simp [List.any_reverse]
      · rw [if_neg h3]
        simp [List.any_reverse]
    · rw [if_neg h2]
      by_cases h3 : key = "dihedral".data ∧ l.getD 1 0 > l.getD 2 0
      · rw [if_pos h3]
        simp [List.any_reverse]
      · rw [if_neg h3]

/-- Extract the payload of a successful `Except`, with a default. -/
def okOr {e a : Type} (d : a) : Except e a → a
  | Except.ok x => x
  | Except.error _ => d

def c1Lines : List Line := splitSep '\n' twoScanInput.data

def c1St : PState := okOr ⟨none, false, [], []⟩ (parseCore P0 mol4 c1Lines)

def c1Out : List Obj × List (List (Option ℚ)) :=
  okOr ([], []) (parseLinesC P0 mol4 c1Lines)

/-- C1: for every accepted constraints input, the returned value grid is the
cartesian product of the per-declaration value groups in declaration order with
itertools.product semantics (first declaration slowest), each row is the
concatenation of one step from each declaration, every row length equals the
length of the flattened object list, and for two declarations with value groups
`A` and `B` the grid is exactly `A.flatMap (fun a => B.map (a ++ ·))`, hence has
`A.length * B.length` rows with the first declaration constant on blocks of
`B.length` rows. -/
theorem c1_cartesian_product_grid (P : Prims) (mol : Molecule) (lines : List Line)
    (st : PState) (objs : List Obj) (grid : List (List (Option ℚ)))
    (hrun : parseCore P mol lines = Except.ok st)
    (hout : parseLinesC P mol lines = Except.ok (objs, grid)) :
    objs = st.objs.flatten ∧
    grid = (listProduct st.vals).map List.flatten ∧
    (∀ row ∈ grid, row.length = objs.length) ∧
    (∀ A B, st.vals = [A, B] →
      grid.length = A.length * B.length ∧
      grid = A.flatMap (fun a => B.map (fun b => a ++ b))) := by
  have hinv : List.Forall₂ lenRel st.objs st.vals :=
    (runLines_inv P mol (mol.xyzAng.map (· * ang2bohr)) lines _ st hrun).1 List.Forall₂.nil
  unfold parseLinesC at hout
  rw [hrun] at hout
  simp only [] at hout
  rw [if_neg (not_ne_iff.mpr hinv.length_eq)] at hout
  have hp := Except.ok.inj hout
  simp only [Prod.mk.injEq] at hp
  obtain ⟨hobjs, hgrid⟩ := hp
  subst hobjs
  subst hgrid
  refine ⟨rfl, rfl, ?_, ?_⟩
  · intro row hrow
    obtain ⟨sel, hsel, hflat⟩ := List.mem_map.mp hrow
    rw [← hflat, List.length_flatten, List.length_flatten]
    exact sel_sum_lengths hinv (mem_listProduct st.vals sel hsel)
  · intro A B hAB
    constructor
    · show (valgrpsOf st.vals).length = A.length * B.length
      rw [hAB, valgrps_pair]
      exact flatMap_const_length A _ B.length (fun x _ => List.length_map _ _)
    · show valgrpsOf st.vals = A.flatMap (fun a => B.map (fun b => a ++ b))
      rw [hAB]
      exact valgrps_pair A B

/-- Witness for C1 on the concrete two-scan input: two distance scans with 3
and 2 steps produce a 6-row grid of 2-entry rows. -/
theorem c1_witness :
    parseCore P0 mol4 c1Lines = Except.ok c1St ∧
    parseLinesC P0 mol4 c1Lines = Except.ok (c1Out.1, c1Out.2) ∧
    c1St.vals.length = 2 ∧
    (c1St.vals.getD 0 []).length = 3 ∧
    (c1St.vals.getD 1 []).length = 2 ∧
    c1Out.2.length = 6 := by
  have h := c1_cartesian_product_grid P0 mol4 c1Lines c1St c1Out.1 c1Out.2 rfl rfl
  refine ⟨rfl, rfl, rfl, rfl, rfl, ?_⟩
  have h2 := (h.2.2.2 (c1St.vals.getD 0 []) (c1St.vals.getD 1 []) rfl).1
  rw [h2]
  rfl

/-- C4: atom-index validation. (i) Any state accepted by the line loop only
contains atom indices in `[0, molecule.na)`. (ii) For atom/translation
declarations, a negative resolved index raises the atoms-start-from-1 error and
an index `≥ na` raises the out-of-range error. (iii) The same two errors are
raised by the distance/angle/dihedral branch. (iv) For rotation declarations an
index `≥ len(coords)/3` raises the numpy fancy-indexing IndexError. -/
theorem c4_atom_index_checks :
    (∀ (P : Prims) (mol : Molecule) (lines : List Line) (st : PState),
      mol.xyzAng.length = 3 * mol.na →
      parseCore P mol lines = Except.ok st →
      ∀ g ∈ st.objs, ∀ o ∈ g, ∀ i ∈ objAtoms o, 0 ≤ i ∧ i < (mol.na : ℤ)) ∧
    (∀ (P : Prims) (mol : Molecule) (coords : List ℚ) (mode : Line) (st : PState)
      (line s0 : Line) (stail : List Line) (classes : List CTag) (nAtom ntok : ℕ)
      (atoms : List ℤ),
      tokenizeLn line = s0 :: stail →
      classDict (normKey s0) = some (classes, nAtom) →
      ntokOf mode (normKey s0) classes nAtom = some ntok →
      (s0 :: stail).length = ntok + 1 →
      (normKey s0 ∈ AtomKeysC ∨ normKey s0 ∈ TransKeysC) →
      resolveAtoms mol ((s0 :: stail).getD 1 []) = Except.ok atoms →
      (atoms.any (· < 0) = true →
        processDecl P mol coords mode st line = Except.error Err.atomsFromOne) ∧
      (atoms.any (· < 0) = false → atoms.any (· ≥ (mol.na : ℤ)) = true →
        processDecl P mol coords mode st line = Except.error Err.atomOutOfRange)) ∧
    (∀ (P : Prims) (mol : Molecule) (coords : List ℚ) (mode : Line) (st : PState)
      (line s0 : Line) (stail : List Line) (classes : List CTag) (nAtom ntok : ℕ)
      (atomsRaw : List ℤ),
      tokenizeLn line = s0 :: stail →
      classDict (normKey s0) = some (classes, nAtom) →
      ntokOf mode (normKey s0) classes nAtom = some ntok →
      (s0 :: stail).length = ntok + 1 →
      ¬(normKey s0 ∈ AtomKeysC ∨ normKey s0 ∈ TransKeysC) →
      (normKey s0 = "distance".data ∨ normKey s0 = "angle".data ∨
        normKey s0 = "dihedral".data) →
      classes.length = 1 →
      exMapM dadTok (((s0 :: stail).drop 1).take nAtom) = Except.ok atomsRaw →
      (atomsRaw.any (· < 0) = true →
        processDecl P mol coords mode st line = Except.error Err.atomsFromOne) ∧
      (atomsRaw.any (· < 0) = false → atomsRaw.any (· ≥ (mol.na : ℤ)) = true →
        processDecl P mol coords mode st line = Except.error Err.atomOutOfRange)) ∧
    (∀ (P : Prims) (mol : Molecule) (coords : List ℚ) (mode : Line) (st : PState)
      (line s0 : Line) (stail : List Line) (classes : List CTag) (nAtom ntok : ℕ)
      (atomsN : List ℕ),
      tokenizeLn line = s0 :: stail →
      classDict (normKey s0) = some (classes, nAtom) →
      ntokOf mode (normKey s0) classes nAtom = some ntok →
      (s0 :: stail).length = ntok + 1 →
      normKey s0 = "rotation".data →
      uncommadashM ((s0 :: stail).getD 1 []) = Except.ok atomsN →
      coords.length % 3 = 0 →
      atomsN.any (· ≥ coords.length / 3) = true →
      processDecl P mol coords mode st line = Except.error Err.indexErr) := by
  refine ⟨?_, ?_, ?_, ?_⟩
  · intro P mol lines st hwf hrun
    have hcl : (mol.xyzAng.map (· * ang2bohr)).length = 3 * mol.na := by
      rw [List.length_map]
      exact hwf
    exact (runLines_inv P mol (mol.xyzAng.map (· * ang2bohr)) lines _ st hrun).2 hcl
      (fun g hg => absurd hg (List.not_mem_nil g))
  · intro P mol coords mode st line s0 stail classes nAtom ntok atoms
      hts hk hnt hlen hak hres
    unfold processDecl
    rw [hts]
    simp only []
    rw [hk]
    simp only []
    rw [hnt]
    simp only []
    rw [if_neg (not_ne_iff.mpr hlen), if_pos hak, hres]
    simp only []
    constructor
    · intro htrue
      rw [htrue]
      rfl
    · intro hfalse htrue
      rw [hfalse, htrue]
      rfl
  · intro P mol coords mode st line s0 stail classes nAtom ntok atomsRaw
      hts hk hnt hlen hak hdad hcl1 hraw
    unfold processDecl
    rw [hts]
    simp only []
    rw [hk]
    simp only []
    rw [hnt]
    simp only []
    rw [if_neg (not_ne_iff.mpr hlen), if_neg hak, if_pos hdad]
    unfold dadBranch
    rw [if_neg (not_ne_iff.mpr hcl1), hraw]
    simp only []
    constructor
    · intro htrue
      rw [canonDAD_any, htrue]
      rfl
    · intro hfalse htrue
      rw [canonDAD_any, canonDAD_any, hfalse, htrue]
      rfl
  · intro P mol coords mode st line s0 stail classes nAtom ntok atomsN
      hts hk hnt hlen hrot hres hmod hany
    unfold processDecl
    rw [hts]
    simp only []
    rw [hk]
    simp only []
    rw [hnt]
    simp only []
    rw [if_neg (not_ne_iff.mpr hlen), hrot]
    rw [if_neg (by decide : ¬("rotation".data ∈ AtomKeysC ∨ "rotation".data ∈ TransKeysC))]
    rw [if_neg (by decide : ¬("rotation".data = "distance".data ∨
      "rotation".data = "angle".data ∨ "rotation".data = "dihedral".data))]
    rw [if_pos rfl]
    unfold rotBranch
    rw [hres]
    simp only []
    rw [if_neg (not_ne_iff.mpr hmod), if_pos hany]

def c4Lines : List Line := splitSep '\n' "$freeze\nxyz 2".data

def c4St : PState := okOr ⟨none, false, [], []⟩ (parseCore P0 mol3 c4Lines)

/-- The empty loop state, used to exercise single declarations. -/
def st0 : PState := ⟨none, false, [], []⟩

/-- Witness for C4: a successful freeze of atom 2 of the water molecule keeps
its index in range, while each keyword family rejects out-of-range indices with
the error the source raises. -/
theorem c4_witness :
    (parseCore P0 mol3 c4Lines = Except.ok c4St ∧
      0 ≤ (1 : ℤ) ∧ (1 : ℤ) < (mol3.na : ℤ)) ∧
    processDecl P0 mol3 [] "freeze".data st0 "x 0".data = Except.error Err.atomsFromOne ∧
    processDecl P0 mol3 [] "freeze".data st0 "x 99".data = Except.error Err.atomOutOfRange ∧
    processDecl P0 mol3 [] "freeze".data st0 "distance 0 1".data
      = Except.error Err.atomsFromOne ∧
    processDecl P0 mol3 [] "freeze".data st0 "distance 1 99".data
      = Except.error Err.atomOutOfRange ∧
    processDecl P0 mol3 [0, 0, 0, 0, 0, 0, 0, 0, 0] "freeze".data st0 "rotation 1-99".data
      = Except.error Err.indexErr := by
  refine ⟨⟨rfl, ?_⟩, ?_, ?_, ?_, ?_, ?_⟩
  · exact c4_atom_index_checks.1 P0 mol3 c4Lines c4St (by decide) rfl
      [Obj.single CTag.CartX 1 1] (by decide) (Obj.single CTag.CartX 1 1) (by decide)
      1 (by decide)
  · exact (c4_atom_index_checks.2.1 P0 mol3 [] "freeze".data st0 "x 0".data "x".data
      ["0".data] [CTag.CartX] 1 1 [-1] rfl rfl rfl rfl (by decide) (by decide)).1 (by decide)
  · exact (c4_atom_index_checks.2.1 P0 mol3 [] "freeze".data st0 "x 99".data "x".data
      ["99".data] [CTag.CartX] 1 1 [98] rfl rfl rfl rfl (by decide) (by decide)).2
      (by decide) (by decide)
  · exact (c4_atom_index_checks.2.2.1 P0 mol3 [] "freeze".data st0 "distance 0 1".data
      "distance".data ["0".data, "1".data] [CTag.Distance] 2 2 [-1, 0] rfl rfl rfl rfl
      (by decide) (Or.inl rfl) rfl (by decide)).1 (by decide)
  · exact (c4_atom_index_checks.2.2.1 P0 mol3 [] "freeze".data st0 "distance 1 99".data
      "distance".data ["1".data, "99".data] [CTag.Distance] 2 2 [0, 98] rfl rfl rfl rfl
      (by decide) (Or.inl rfl) rfl (by decide)).2 (by decide) (by decide)
  · exact c4_atom_index_checks.2.2.2 P0 mol3 [0, 0, 0, 0, 0, 0, 0, 0, 0] "freeze".data st0
      "rotation 1-99".data "rotation".data ["1-99".data] [CTag.RotA, CTag.RotB, CTag.RotC]
      1 1 (List.range' 0 99) rfl rfl rfl rfl rfl (by decide) (by decide) (by decide)
